import Mathlib

/-!
Shallow embedding of the nvidia_tensorrt NNAdapter driver core
(`driver/nvidia_tensorrt/engine.cc` and `driver/nvidia_tensorrt/program.cc`):
operand/dimension types, runtime-argument validation, the cache
serialization format, the compiled-program state (sub-models, sub-caches,
sub-programs, tensor maps), Build / Execute / Clear, the TensorRT
sub-program build pipeline, and the context device-id resolution.
-/

namespace NvidiaTensorrt

/-! ## Operand and dimension types (NNAdapterOperandType) -/

/-- Embeds `NNAdapterOperandDimensionType`: `data` holds the static extents
(`count` = length), `dynamic_data` the dynamic rows ({opt, min, max} when
`dynamic_count = 3`).  The C struct stores fixed-capacity arrays plus
explicit counts; here the logical lengths are the list lengths. -/
structure DimensionType where
  data : List Int
  dynamic_data : List (List Int)
deriving DecidableEq

/-- Logical `dimensions.count`. -/
def DimensionType.count (d : DimensionType) : Nat := d.data.length

/-- Logical `dimensions.dynamic_count`. -/
def DimensionType.dynamic_count (d : DimensionType) : Nat := d.dynamic_data.length

/-- Embeds `NNAdapterOperandType` (precision code plus dimensions); the
claims only inspect the dimensions, the precision tags along for fidelity. -/
structure OperandType where
  precision : Nat
  dimensions : DimensionType
deriving DecidableEq

/-! ## Runtime arguments and CheckInputsAndOutputs (engine.cc:131-168) -/

/-- A runtime argument (`core::Argument`): its position index, the actual
operand type reported by `arg->access(arg->memory, &type)`, and the tensor
payload handed over through the host pointer (opaque value of type `V`). -/
structure Argument (V : Type) where
  index : Nat
  type : OperandType
  value : V
deriving DecidableEq

/-- Modelled from the spec: the runtime argument interface exposes indexed
arguments (§6); `FindArgumentByIndex` (utility, not under src/) scans the
argument array for the entry whose `index` field equals `i`, returning null
when absent. -/
def FindArgumentByIndex {V : Type} (arguments : List (Argument V)) (i : Nat) :
    Option (Argument V) :=
  arguments.find? (fun a => a.index == i)

/-- Outcome of `Program::CheckInputsAndOutputs`: `noError` and
`invalidDimensions` are the returned codes `NNADAPTER_NO_ERROR` /
`NNADAPTER_INVALID_DIMENSIONS`; `fatal` stands for an aborting
`NNADAPTER_CHECK` (or an out-of-range `.at` / null dereference). -/
inductive CheckOutcome where
  | noError
  | invalidDimensions
  | fatal
deriving DecidableEq

/-- The inner dynamic-range scan of engine.cc:160-165: true iff no extent
falls below the min row (`dynamic_data[1]`) or above the max row
(`dynamic_data[2]`). -/
def dimsWithinDynamicRange (data minRow maxRow : List Int) : Bool :=
  (List.range data.length).all fun j =>
    !(data.getD j 0 < minRow.getD j 0 || data.getD j 0 > maxRow.getD j 0)

/-- Validation of one input argument against its declared type
(engine.cc:141-165): rank mismatch is `invalidDimensions`; exact static
match passes; otherwise the declared type must carry the 3-row dynamic
{opt,min,max} data (`NNADAPTER_CHECK_EQ(dynamic_count, 3)`, fatal if not)
and every extent must lie within [min, max]. -/
def checkOneInput (declared actual : OperandType) : CheckOutcome :=
  let src := declared.dimensions
  if actual.dimensions.count ≠ src.count then .invalidDimensions
  else if actual.dimensions.data = src.data then .noError
  else if src.dynamic_count ≠ 3 then .fatal
  else if dimsWithinDynamicRange actual.dimensions.data
      (src.dynamic_data.getD 1 []) (src.dynamic_data.getD 2 []) then .noError
  else .invalidDimensions

/-- The validation loop of engine.cc:136-166, iterating `i` upward while
`remaining` counts down from `input_count`; a missing argument or an
out-of-range `input_types_.at(i)` is fatal. -/
def checkInputsFrom {V : Type} (input_types : List OperandType)
    (input_arguments : List (Argument V)) : Nat → Nat → CheckOutcome
  | _, 0 => .noError
  | i, remaining + 1 =>
    match FindArgumentByIndex input_arguments i with
    | none => .fatal
    | some arg =>
      match input_types[i]? with
      | none => .fatal
      | some src =>
        match checkOneInput src arg.type with
        | .noError => checkInputsFrom input_types input_arguments (i + 1) remaining
        | e => e

/-- Embeds `Program::CheckInputsAndOutputs` (engine.cc:131-168): validates
the first `input_count` inputs; the output arguments and output count are
parameters of the call but are never read. -/
def Program.CheckInputsAndOutputs {V : Type} (input_types : List OperandType)
    (input_count : Nat) (input_arguments : List (Argument V))
    (output_count : Nat) (output_arguments : List (Argument V)) : CheckOutcome :=
  let _ := output_count
  let _ := output_arguments
  checkInputsFrom input_types input_arguments 0 input_count

/-! ## Byte-level cache codec (engine.cc:263-318)

The `Serialize` / `Deserialize` primitives live in `utility/utility.h`,
which is not under src/.  They are modelled from the spec (§4.2): a fixed
binary layout, little-endian machine representation, with a leading
`size_t` sub-model count and, per sub-model, `int32` backend id,
length-prefixed sub-graph bytes, `bool` ownership flag, length-prefixed
input and output index lists, and length-prefixed opaque compiled bytes. -/

/-- Little-endian encoding of `n` into `w` bytes (each byte a `Nat < 256`). -/
def encLE : Nat → Nat → List Nat
  | 0, _ => []
  | w + 1, n => n % 256 :: encLE w (n / 256)

/-- Little-endian decoding of a byte list. -/
def decLE : List Nat → Nat
  | [] => 0
  | b :: bs => b + 256 * decLE bs

/-- Splits off the first `k` bytes; `none` models reading past the end of
the buffer. -/
def takeBytes (k : Nat) (bs : List Nat) : Option (List Nat × List Nat) :=
  if k ≤ bs.length then some (bs.take k, bs.drop k) else none

/-- Modelled from the spec: `Serialize` of a `size_t` (8 bytes, little
endian). -/
def serializeSizeT (n : Nat) : List Nat := encLE 8 n

/-- Modelled from the spec: `Serialize` of a 32-bit `int` in its
two's-complement machine representation. -/
def serializeInt32 (i : Int) : List Nat := encLE 4 (i % 4294967296).toNat

/-- Modelled from the spec: `Serialize` of a `bool` as one byte. -/
def serializeBool (b : Bool) : List Nat := [if b then 1 else 0]

/-- Modelled from the spec: `Serialize` of a `std::vector<uint8_t>` as a
`size_t` element-count prefix followed by the raw bytes. -/
def serializeBytes (v : List Nat) : List Nat := serializeSizeT v.length ++ v

/-- Modelled from the spec: `Serialize` of a `std::vector<int>` as a
`size_t` element-count prefix followed by the 32-bit elements. -/
def serializeIntVec (v : List Int) : List Nat :=
  serializeSizeT v.length ++ v.flatMap serializeInt32

/-- Modelled from the spec: `Deserialize` of a `size_t`. -/
def deserializeSizeT (bs : List Nat) : Option (Nat × List Nat) :=
  (takeBytes 8 bs).map fun p => (decLE p.1, p.2)

/-- Modelled from the spec: `Deserialize` of a 32-bit `int`, undoing the
two's-complement representation. -/
def deserializeInt32 (bs : List Nat) : Option (Int × List Nat) :=
  (takeBytes 4 bs).map fun p =>
    (if decLE p.1 < 2147483648 then (decLE p.1 : Int)
     else (decLE p.1 : Int) - 4294967296, p.2)

/-- Modelled from the spec: `Deserialize` of a `bool` (one byte, nonzero is
true). -/
def deserializeBool (bs : List Nat) : Option (Bool × List Nat) :=
  match bs with
  | [] => none
  | b :: rest => some (b ≠ 0, rest)

/-- Modelled from the spec: `Deserialize` of a `std::vector<uint8_t>`. -/
def deserializeBytes (bs : List Nat) : Option (List Nat × List Nat) := do
  let (n, bs1) ← deserializeSizeT bs
  takeBytes n bs1

/-- Reads `n` consecutive 32-bit ints. -/
def deserializeInt32s : Nat → List Nat → Option (List Int × List Nat)
  | 0, bs => some ([], bs)
  | n + 1, bs => do
    let (i, bs1) ← deserializeInt32 bs
    let (is, bs2) ← deserializeInt32s n bs1
    some (i :: is, bs2)

/-- Modelled from the spec: `Deserialize` of a `std::vector<int>`. -/
def deserializeIntVec (bs : List Nat) : Option (List Int × List Nat) := do
  let (n, bs1) ← deserializeSizeT bs
  deserializeInt32s n bs1

/-! ## Sub-models and the cache artifact -/

/-- One entry of `sub_models_`, the C++
`std::pair<int, std::tuple<core::Model*, bool, std::vector<int>,
std::vector<int>>>`: backend id (0 tensorrt, 1 cuda, 2 host), the
sub-graph (abstract type `M`), the serialized ownership flag, and the
input/output tensor index lists. -/
structure SubModel (M : Type) where
  device_id : Int
  model : M
  flag : Bool
  input_indexes : List Int
  output_indexes : List Int
deriving DecidableEq

/-- The per-sub-model body of the serialization loop (engine.cc:277-284):
backend id, length-prefixed serialized sub-graph, ownership flag, index
lists, and the opaque per-backend compiled bytes. -/
def serializeSubModelEntry {M : Type} (serializeModel : M → List Nat)
    (sm : SubModel M) (cache : List Nat) : List Nat :=
  serializeInt32 sm.device_id ++
  serializeBytes (serializeModel sm.model) ++
  serializeBool sm.flag ++
  serializeIntVec sm.input_indexes ++
  serializeIntVec sm.output_indexes ++
  serializeBytes cache

/-- Serializes each sub-model with its cache slice (`sub_caches_.at(i)`;
a missing slice would throw, modelled as `none`). -/
def serializeEntries {M : Type} (serializeModel : M → List Nat) :
    List (SubModel M) → List (List Nat) → Option (List Nat)
  | [], _ => some []
  | _ :: _, [] => none
  | sm :: rest, c :: cs =>
    (serializeEntries serializeModel rest cs).map
      (serializeSubModelEntry serializeModel sm c ++ ·)

/-- Embeds `Program::SerializeToCache` (engine.cc:263-286): leading
`size_t` sub-model count followed by the per-sub-model entries.
`serializeModel` stands for the external `SerializeModel` codec. -/
def Program.SerializeToCache {M : Type} (serializeModel : M → List Nat)
    (sub_models : List (SubModel M)) (sub_caches : List (List Nat)) :
    Option (List Nat) :=
  (serializeEntries serializeModel sub_models sub_caches).map
    (serializeSizeT sub_models.length ++ ·)

/-- One iteration of the deserialization loop (engine.cc:293-314), yielding
the reconstructed sub-model, its cache slice, and the remaining buffer.
A failing `DeserializeModel` is the fatal `NNADAPTER_CHECK`. -/
def deserializeSubModelEntry {M : Type} (deserializeModel : List Nat → Option M)
    (bs : List Nat) : Option (SubModel M × List Nat × List Nat) := do
  let (device_id, bs1) ← deserializeInt32 bs
  let (model_buffer, bs2) ← deserializeBytes bs1
  let model ← deserializeModel model_buffer
  let (bool_value, bs3) ← deserializeBool bs2
  let (input_indexes, bs4) ← deserializeIntVec bs3
  let (output_indexes, bs5) ← deserializeIntVec bs4
  let (sub_cache, bs6) ← deserializeBytes bs5
  some (⟨device_id, model, bool_value, input_indexes, output_indexes⟩,
        sub_cache, bs6)

/-- The `sub_model_size`-bounded deserialization loop. -/
def deserializeLoop {M : Type} (deserializeModel : List Nat → Option M) :
    Nat → List Nat → Option (List (SubModel M) × List (List Nat) × List Nat)
  | 0, bs => some ([], [], bs)
  | n + 1, bs => do
    let (sm, c, bs1) ← deserializeSubModelEntry deserializeModel bs
    let (sms, cs, bs2) ← deserializeLoop deserializeModel n bs1
    some (sm :: sms, c :: cs, bs2)

/-- Embeds `Program::DeserializeFromCache` (engine.cc:288-318): reads the
count, loops, and finally requires the buffer to be consumed exactly
(`NNADAPTER_CHECK_EQ(buffer_size, 0UL)`, fatal otherwise, modelled as
`none`). -/
def Program.DeserializeFromCache {M : Type}
    (deserializeModel : List Nat → Option M) (buffer : List Nat) :
    Option (List (SubModel M) × List (List Nat)) := do
  let (n, bs1) ← deserializeSizeT buffer
  let (sub_models, sub_caches, bs2) ← deserializeLoop deserializeModel n bs1
  if bs2 = [] then some (sub_models, sub_caches) else none

/-- Machine-representability bounds under which one serialized sub-model
entry round-trips: every length fits a `size_t`, every serialized `int`
fits 32 bits, and the external model codec succeeds on this entry. -/
def SubModelWF {M : Type} (serializeModel : M → List Nat)
    (deserializeModel : List Nat → Option M)
    (sm : SubModel M) (cache : List Nat) : Prop :=
  (serializeModel sm.model).length < 2 ^ 64 ∧
  (deserializeModel (serializeModel sm.model)).isSome ∧
  -2147483648 ≤ sm.device_id ∧ sm.device_id < 2147483648 ∧
  sm.input_indexes.length < 2 ^ 64 ∧
  (∀ x ∈ sm.input_indexes, -2147483648 ≤ x ∧ x < 2147483648) ∧
  sm.output_indexes.length < 2 ^ 64 ∧
  (∀ x ∈ sm.output_indexes, -2147483648 ≤ x ∧ x < 2147483648) ∧
  cache.length < 2 ^ 64

instance {M : Type} (serializeModel : M → List Nat)
    (deserializeModel : List Nat → Option M) (sm : SubModel M)
    (cache : List Nat) :
    Decidable (SubModelWF serializeModel deserializeModel sm cache) := by
  unfold SubModelWF; infer_instance

/-! ## Compiled program state and Build / Clear (engine.cc:27-129) -/

/-- The three sub-program classes selected by the backend id switch in
`Program::Build` (engine.cc:58-74). -/
inductive Backend where
  | tensorrtEngine
  | cudaKernels
  | hostKernels
deriving DecidableEq

/-- One entry of `sub_programs_`: the selected backend class, the sub-graph
it was constructed from, and the index of the `sub_caches_` slice whose
address was passed to its constructor (`&sub_caches_.at(i)`). -/
structure SubProgramRec (M : Type) where
  backend : Backend
  model : M
  cacheIndex : Nat
deriving DecidableEq

/-- The backend id switch of engine.cc:58-74: 0 builds a `TensorrtProgram`,
1 a `CudaProgram`, 2 a `HostProgram`, anything else is the fatal
`Not support device id` log. -/
def mkSubProgram {M : Type} (i : Nat) (sm : SubModel M) :
    Option (SubProgramRec M) :=
  if sm.device_id = 0 then some ⟨.tensorrtEngine, sm.model, i⟩
  else if sm.device_id = 1 then some ⟨.cudaKernels, sm.model, i⟩
  else if sm.device_id = 2 then some ⟨.hostKernels, sm.model, i⟩
  else none

/-- A tensor map (`std::map<int, std::shared_ptr<Tensor>>`) keyed by the
signed tensor index; a tensor object is identified with the value of type
`V` it currently holds. -/
def TMap (V : Type) := Int → Option V

/-- Inserting / overwriting one tensor value. -/
def TMap.update {V : Type} (m : TMap V) (k : Int) (v : V) : TMap V :=
  fun x => if x = k then some v else m x

/-- The empty tensor map. -/
def TMap.empty {V : Type} : TMap V := fun _ => none

/-- Pointwise domination between tensor maps: every entry of the first map
is present with the same value in the second. -/
def TMap.le {V : Type} (m m2 : TMap V) : Prop :=
  ∀ k v, m k = some v → m2 k = some v

/-- The member state of `Program` (engine.h): sub-models, their cache
slices, the instantiated sub-programs, the three tensor maps, the declared
boundary types, and the cache-ownership marker. -/
structure ProgramState (M V : Type) where
  sub_models_ : List (SubModel M)
  sub_caches_ : List (List Nat)
  sub_programs_ : List (SubProgramRec M)
  input_tensors_ : TMap V
  temporary_tensors_ : TMap V
  output_tensors_ : TMap V
  input_types_ : List OperandType
  output_types_ : List OperandType
  is_sub_model_from_cache_ : Bool

/-- Modelled from the spec: a freshly constructed `Program` (the member
initializers live in engine.h, which is not under src/) starts with empty
containers and, per §3/§4.2 — sub-models from partitioning are borrowed,
ownership arises only through cache reconstruction — with
`is_sub_model_from_cache_` false. -/
def ProgramState.fresh (M V : Type) : ProgramState M V :=
  ⟨[], [], [], TMap.empty, TMap.empty, TMap.empty, [], [], false⟩

/-- Embeds `Program::Clear` (engine.cc:27-46): when
`is_sub_model_from_cache_` is set, every sub-model's sub-graph is
`ClearModel`-ed and deleted; all containers are then emptied.  The second
component lists the released sub-graphs; the flag itself is not reset. -/
def Program.Clear {M V : Type} (s : ProgramState M V) :
    ProgramState M V × List M :=
  (⟨[], [], [], TMap.empty, TMap.empty, TMap.empty, [], [],
    s.is_sub_model_from_cache_⟩,
   if s.is_sub_model_from_cache_ then s.sub_models_.map SubModel.model else [])

/-- The `core::Cache` object: opaque buffer plus the boundary operand
types copied alongside it. -/
structure CoreCache where
  buffer : List Nat
  input_types : List OperandType
  output_types : List OperandType

/-- Embeds `Program::BuildFromModel` (engine.cc:92-122) at the orchestration
level: records the graph's declared boundary types, installs the sub-model
sequence produced by the external `PartitionModelIntoSubmodels`
(`partitionResult`), checks it is non-empty (`NNADAPTER_CHECK`, fatal
otherwise), and resizes `sub_caches_` to one empty slice per sub-model. -/
def Program.BuildFromModel {M V : Type}
    (modelInputTypes modelOutputTypes : List OperandType)
    (partitionResult : List (SubModel M)) (s : ProgramState M V) :
    Option (ProgramState M V) :=
  if partitionResult.isEmpty then none
  else some { s with
    input_types_ := modelInputTypes,
    output_types_ := modelOutputTypes,
    sub_models_ := partitionResult,
    sub_caches_ := List.replicate partitionResult.length [] }

/-- Embeds `Program::BuildFromCache` (engine.cc:124-129): deserializes the
buffer (fatal corruption is `none`), installs the reconstructed sub-models
and cache slices, copies the cached boundary types, and marks the
sub-models as cache-owned.  `Build` always clears the containers first,
so the emplace-backs of `DeserializeFromCache` amount to assignment. -/
def Program.BuildFromCache {M V : Type}
    (deserializeModel : List Nat → Option M) (cache : CoreCache)
    (s : ProgramState M V) : Option (ProgramState M V) :=
  match Program.DeserializeFromCache deserializeModel cache.buffer with
  | none => none
  | some (ms, cs) => some { s with
      sub_models_ := ms,
      sub_caches_ := cs,
      input_types_ := cache.input_types,
      output_types_ := cache.output_types,
      is_sub_model_from_cache_ := true }

/-- The sub-program creation loop of engine.cc:56-75: for each sub-model in
order, take the address of its cache slice (`sub_caches_.at(i)`, fatal when
out of range) and dispatch on the backend id. -/
def createSubPrograms {M : Type} (cacheLen : Nat) :
    Nat → List (SubModel M) → Option (List (SubProgramRec M))
  | _, [] => some []
  | i, sm :: rest =>
    if i < cacheLen then
      match mkSubProgram i sm with
      | none => none
      | some p => (createSubPrograms cacheLen (i + 1) rest).map (p :: ·)
    else none

/-- The sub-program build loop of engine.cc:77-79: each sub-program's
`Build()` may rewrite its own cache slice (a `TensorrtProgram` stores the
compiled engine blob there); `subBuild` is the per-backend build, `none`
standing for the fatal `NNADAPTER_CHECK_EQ`. -/
def buildSubPrograms {M : Type}
    (subBuild : SubProgramRec M → List Nat → Option (List Nat)) :
    List (SubProgramRec M) → List (List Nat) → Option (List (List Nat))
  | [], caches => some caches
  | p :: rest, caches =>
    match caches[p.cacheIndex]? with
    | none => none
    | some c =>
      match subBuild p c with
      | none => none
      | some c2 => buildSubPrograms subBuild rest (caches.set p.cacheIndex c2)

/-- Embeds `Program::Build` (engine.cc:48-90): clear, build from the model
(empty cache buffer) or from the cache, instantiate one sub-program per
sub-model, build each in order, serialize the built state into the cache
buffer on the first build, and normalize the declared boundary types with
the external `ConvertDynamicDimensions` (`convertDyn`).  Returns the final
state and the resulting cache buffer. -/
def Program.Build {M V : Type} (serializeModel : M → List Nat)
    (deserializeModel : List Nat → Option M)
    (modelInputTypes modelOutputTypes : List OperandType)
    (partitionResult : List (SubModel M))
    (subBuild : SubProgramRec M → List Nat → Option (List Nat))
    (convertDyn : OperandType → OperandType)
    (cache : CoreCache) (s : ProgramState M V) :
    Option (ProgramState M V × List Nat) :=
  let s0 := (Program.Clear s).1
  match (if cache.buffer = []
    then Program.BuildFromModel modelInputTypes modelOutputTypes
      partitionResult s0
    else Program.BuildFromCache deserializeModel cache s0) with
  | none => none
  | some s1 =>
    match createSubPrograms s1.sub_caches_.length 0 s1.sub_models_ with
    | none => none
    | some ps =>
      match buildSubPrograms subBuild ps s1.sub_caches_ with
      | none => none
      | some caches2 =>
        match (if cache.buffer = []
          then Program.SerializeToCache serializeModel s1.sub_models_ caches2
          else some cache.buffer) with
        | none => none
        | some buf =>
          some ({ s1 with
            sub_programs_ := ps,
            sub_caches_ := caches2,
            input_types_ := s1.input_types_.map convertDyn,
            output_types_ := s1.output_types_.map convertDyn }, buf)

/-! ## Operation classification (engine.cc:100-117) -/

/-- A graph operation; the classification reads only its kind tag
(`operation.type`). -/
structure Operation where
  type : Nat
deriving DecidableEq

/-- The three backend buckets of `supported_operations`
(`{{0, {}}, {1, {}}, {2, {}}}`): index 0 tensorrt (accelerator), 1 cuda
(compute), 2 host. -/
structure SupportedOperations where
  tensorrtOps : List Operation
  cudaOps : List Operation
  hostOps : List Operation
deriving DecidableEq

/-- The bucket belonging to a backend id. -/
def SupportedOperations.forDevice (b : SupportedOperations) : Nat → List Operation
  | 0 => b.tensorrtOps
  | 1 => b.cudaOps
  | 2 => b.hostOps
  | _ => []

/-- The classification loop of engine.cc:105-117: an operation whose kind
is on the cuda allow-list goes to bucket 1, otherwise one on the host
allow-list goes to bucket 2, otherwise it defaults to bucket 0. -/
def Program.supportedOperations (cuda_operations host_operations : List Nat) :
    List Operation → SupportedOperations
  | [] => ⟨[], [], []⟩
  | op :: rest =>
    let b := Program.supportedOperations cuda_operations host_operations rest
    if op.type ∈ cuda_operations then { b with cudaOps := op :: b.cudaOps }
    else if op.type ∈ host_operations then { b with hostOps := op :: b.hostOps }
    else { b with tensorrtOps := op :: b.tensorrtOps }

/-! ## Execute (engine.cc:170-261) -/

/-- Result of `Program::Execute`: the recoverable
`NNADAPTER_INVALID_DIMENSIONS` propagated from the validation gate, or
`NNADAPTER_NO_ERROR` together with the values copied back into the caller's
output buffers. -/
inductive ExecRet (V : Type) where
  | invalidDimensions
  | success (outputs : List V)
deriving DecidableEq

/-- The feed loop of engine.cc:192-205: for the i-th declared input, find
the caller argument (fatal when missing), then create-or-reuse the tensor
at index `-(i+1)` and overwrite it with the caller's data (`SetTensor`). -/
def feedLoop {V : Type} (input_arguments : List (Argument V)) :
    Nat → Nat → TMap V → Option (TMap V)
  | _, 0, m => some m
  | i, r + 1, m =>
    match FindArgumentByIndex input_arguments i with
    | none => none
    | some a =>
      feedLoop input_arguments (i + 1) r (m.update (-(i : Int) - 1) a.value)

/-- Input resolution of engine.cc:213-221: a negative index reads the
boundary input map, a non-negative one the intermediate map; a missing
entry is the fatal `NNADAPTER_CHECK(...count(...))`. -/
def readSubInputs {V : Type} (inm tm : TMap V) : List Int → Option (List V)
  | [] => some []
  | idx :: rest =>
    match (if idx < 0 then inm idx else tm idx) with
    | none => none
    | some v => (readSubInputs inm tm rest).map (v :: ·)

/-- Output placement of engine.cc:223-236 fused with the sub-program run:
the k-th produced value lands at the k-th declared output index, negative
indexes in the boundary output map, non-negative ones in the intermediate
map. -/
def writeSubOutputs {V : Type} :
    List Int → List V → TMap V → TMap V → TMap V × TMap V
  | [], _, tm, om => (tm, om)
  | _ :: _, [], tm, om => (tm, om)
  | idx :: is, v :: vs, tm, om =>
    if idx < 0 then writeSubOutputs is vs tm (om.update idx v)
    else writeSubOutputs is vs (tm.update idx v) om

/-- The in-order sub-program loop of engine.cc:207-238; `sem` is the
(deterministic) input-values-to-output-values semantics of one
sub-program's `Execute`. -/
def runSubs {M V : Type} (sem : SubProgramRec M → List V → List V) :
    List (SubModel M × SubProgramRec M) → TMap V → TMap V → TMap V →
    Option (TMap V × TMap V)
  | [], _, tm, om => some (tm, om)
  | (smod, sprog) :: rest, inm, tm, om =>
    match readSubInputs inm tm smod.input_indexes with
    | none => none
    | some vals =>
      let p := writeSubOutputs smod.output_indexes (sem sprog vals) tm om
      runSubs sem rest inm p.1 p.2

/-- The fetch loop of engine.cc:240-259: for the i-th declared output, find
the caller argument (fatal when missing) and read the boundary output
tensor at index `-(i+1)` (`output_tensors_.at`, fatal when absent). -/
def fetchLoop {V : Type} (output_arguments : List (Argument V)) (om : TMap V) :
    Nat → Nat → Option (List V)
  | _, 0 => some []
  | i, r + 1 =>
    match FindArgumentByIndex output_arguments i with
    | none => none
    | some _ =>
      match om (-(i : Int) - 1) with
      | none => none
      | some v => (fetchLoop output_arguments om (i + 1) r).map (v :: ·)

/-- Embeds `Program::Execute` (engine.cc:184-261): validate all inputs up
front, feed the boundary input tensors, run every sub-program in partition
order against the tensor maps, then fetch the boundary outputs.  On the
recoverable validation error the state is returned untouched; fatal checks
are `none`. -/
def Program.Execute {M V : Type} (sem : SubProgramRec M → List V → List V)
    (input_count : Nat) (input_arguments : List (Argument V))
    (output_count : Nat) (output_arguments : List (Argument V))
    (s : ProgramState M V) : Option (ExecRet V × ProgramState M V) :=
  match Program.CheckInputsAndOutputs s.input_types_ input_count
    input_arguments output_count output_arguments with
  | .fatal => none
  | .invalidDimensions => some (.invalidDimensions, s)
  | .noError =>
    match feedLoop input_arguments 0 s.input_types_.length s.input_tensors_ with
    | none => none
    | some inm =>
      if s.sub_programs_.length ≤ s.sub_models_.length then
        match runSubs sem (s.sub_models_.zip s.sub_programs_) inm
          s.temporary_tensors_ s.output_tensors_ with
        | none => none
        | some (tm, om) =>
          match fetchLoop output_arguments om 0 s.output_types_.length with
          | none => none
          | some outs =>
            some (.success outs, { s with
              input_tensors_ := inm,
              temporary_tensors_ := tm,
              output_tensors_ := om })
      else none

/-! ## TensorrtProgram build pipeline (program.cc:154-328) -/

/-- Precision modes parsed by the context (program.cc:81-92). -/
inductive PrecisionMode where
  | kFloat32
  | kFloat16
  | kInt8
deriving DecidableEq

/-- Device classes parsed by the context (program.cc:62-71). -/
inductive DeviceType where
  | kGPU
  | kDLA
deriving DecidableEq

/-- The resolved configuration surface held by `Context` and consumed by
`TensorrtProgram` (program.cc:54-144). -/
structure Context where
  device_type : DeviceType
  device_id : Int
  precision : PrecisionMode
  gpu_fallback : Bool
  cuda_operations : List Nat
  host_operations : List Nat

/-- Embeds the device-id clamp of `Context::Context` (program.cc:73-76):
the configured value (property string or environment, 0 when unset) is
kept only when strictly positive. -/
def Context.resolveDeviceId (configured : Int) : Int :=
  if configured > 0 then configured else 0

/-- A graph operand: its operand type. -/
structure Operand where
  type : OperandType
deriving DecidableEq

/-- The `core::Model` consumed by a `TensorrtProgram` sub-program. -/
structure CoreModel where
  input_operands : List Operand
  output_operands : List Operand
  operations : List Operation

/-- Observable steps of `TensorrtProgram::BuildFromModel` /
`CompleteConfig`; `buildEngine` is the device compilation
(`buildSerializedNetwork` / `buildEngineWithConfig`). -/
inductive BuildEvent where
  | unpackOpFusion
  | fuseMatMulAddIntoFullyConnected
  | removeReshapeBeforeFullyConnected
  | createInferBuilder
  | createNetwork
  | convertModel
  | createBuilderConfig
  | addOptimizationProfile
  | setDefaultDeviceType
  | setDLACore
  | setFP16Flag
  | setInt8Flag
  | setGpuFallbackFlag
  | setInt8Calibrator
  | buildEngine
deriving DecidableEq

/-- The aborting checks of `TensorrtProgram::CompleteConfig`. -/
inductive BuildFatal where
  | dynamicCountNot3
  | int8IncompatibleWithDynamicShape
deriving DecidableEq

/-- The optimization-profile loop of program.cc:202-222: inputs without
dynamic dimensions are skipped; otherwise the type is normalized by the
external `ConvertDynamicDimensions` (`convertDyn`) and must then carry
exactly the 3 dynamic rows (`NNADAPTER_CHECK_EQ`, fatal otherwise) before a
profile is registered. -/
def profileLoop (convertDyn : OperandType → OperandType) :
    List Operand → List BuildEvent × Option BuildFatal
  | [] => ([], none)
  | o :: rest =>
    if o.type.dimensions.dynamic_count = 0 then profileLoop convertDyn rest
    else if (convertDyn o.type).dimensions.dynamic_count ≠ 3 then
      ([], some .dynamicCountNot3)
    else
      let p := profileLoop convertDyn rest
      (.addOptimizationProfile :: p.1, p.2)

/-- Embeds `TensorrtProgram::CompleteConfig` (program.cc:198-273) as its
sequence of observable steps: builder config, optimization profiles (only
with dynamic shape), device type and DLA core, precision flag, GPU
fallback, and finally — for int8 — the incompatibility check
`NNADAPTER_CHECK(!with_dynamic_shape_)` guarding the calibrator setup. -/
def TensorrtProgram.CompleteConfig (ctx : Context)
    (convertDyn : OperandType → OperandType) (with_dynamic_shape : Bool)
    (model : CoreModel) : List BuildEvent × Option BuildFatal :=
  let prof := if with_dynamic_shape then profileLoop convertDyn model.input_operands
    else ([], none)
  match prof.2 with
  | some e => (BuildEvent.createBuilderConfig :: prof.1, some e)
  | none =>
    let evs1 := BuildEvent.createBuilderConfig :: prof.1 ++
      [BuildEvent.setDefaultDeviceType] ++
      (if ctx.device_type = .kDLA then [BuildEvent.setDLACore] else [])
    let evs2 := evs1 ++
      (match ctx.precision with
       | .kFloat32 => if ctx.device_type = .kDLA then [BuildEvent.setFP16Flag] else []
       | .kFloat16 => [BuildEvent.setFP16Flag]
       | .kInt8 => [BuildEvent.setInt8Flag])
    let evs3 := evs2 ++
      (if ctx.gpu_fallback then [BuildEvent.setGpuFallbackFlag] else [])
    if ctx.precision = .kInt8 then
      if with_dynamic_shape then (evs3, some .int8IncompatibleWithDynamicShape)
      else (evs3 ++ [BuildEvent.setInt8Calibrator], none)
    else (evs3, none)

/-- Embeds `TensorrtProgram::BuildFromModel` (program.cc:275-319):
`with_dynamic_shape_` is set when any input operand has a dynamic shape
(external `IsOperandWithDynamicShape`, abstracted as `isDynamic`); the
model is optimized and converted, the builder config completed
(`CompleteConfig`), and only then is the engine compiled. -/
def TensorrtProgram.BuildFromModel (ctx : Context)
    (convertDyn : OperandType → OperandType) (isDynamic : Operand → Bool)
    (model : CoreModel) : List BuildEvent × Option BuildFatal :=
  let wds := model.input_operands.any isDynamic
  let pre := [BuildEvent.unpackOpFusion,
    BuildEvent.fuseMatMulAddIntoFullyConnected,
    BuildEvent.removeReshapeBeforeFullyConnected,
    BuildEvent.createInferBuilder, BuildEvent.createNetwork,
    BuildEvent.convertModel]
  let c := TensorrtProgram.CompleteConfig ctx convertDyn wds model
  match c.2 with
  | some e => (pre ++ c.1, some e)
  | none => (pre ++ c.1 ++ [BuildEvent.buildEngine], none)

/-! ## Concrete fixtures used by the witness theorems -/

/-- A sub-program semantics that copies its inputs to its outputs. -/
def semCopy {M V : Type} : SubProgramRec M → List V → List V := fun _ v => v

/-- A rank-1 static operand type with extent 1. -/
def typeR1 : OperandType := ⟨0, ⟨[1], []⟩⟩

/-- A rank-2 static operand type. -/
def typeR2 : OperandType := ⟨0, ⟨[2, 2], []⟩⟩

/-- A concrete program state declaring one rank-2 input. -/
def stateR2 : ProgramState Unit Nat :=
  ⟨[], [], [], TMap.empty, TMap.empty, TMap.empty, [typeR2], [], false⟩

/-- A rank-1 argument carrying the value 7 at position 0. -/
def argR1 : Argument Nat := ⟨0, typeR1, 7⟩

/-- A rank-1 output argument at position 0. -/
def argOut : Argument Nat := ⟨0, typeR1, 0⟩

/-- A concrete one-sub-program state: the single sub-model reads the
boundary input `-1` and writes the boundary output `-1`. -/
def stateOneSub : ProgramState Unit Nat :=
  ⟨[⟨0, (), false, [-1], [-1]⟩], [[]], [⟨.tensorrtEngine, (), 0⟩],
   TMap.empty, TMap.empty, TMap.empty, [typeR1], [typeR1], false⟩

/-- A default state/buffer pair (used to name the result of a concrete
successful `Build`). -/
def defaultBuilt : ProgramState Unit Nat × List Nat :=
  (ProgramState.fresh Unit Nat, [])

/-- A concrete partition result with one accelerator and one host
sub-model. -/
def partitionTwo : List (SubModel Unit) :=
  [⟨0, (), false, [-1], [-1]⟩, ⟨2, (), false, [-1], [-1]⟩]

/-- A concrete cache object with an empty buffer (first-build path). -/
def emptyCache : CoreCache := ⟨[], [typeR1], [typeR1]⟩

/-- A declared input type with static extents [2, 4] and dynamic rows
opt [2, 4], min [1, 3], max [4, 8]. -/
def srcDyn : OperandType := ⟨0, ⟨[2, 4], [[2, 4], [1, 3], [4, 8]]⟩⟩

/-- A runtime argument whose actual extents [1, 8] sit exactly on the min
bound in dimension 0 and the max bound in dimension 1. -/
def argDyn : Argument Nat := ⟨0, ⟨0, ⟨[1, 8], []⟩⟩, 0⟩

/-- A concrete serialized cache buffer holding one cache-owned sub-model. -/
def cacheBufferOne : List Nat :=
  (Program.SerializeToCache (fun _ => ([] : List Nat))
    [⟨0, (), true, [-1], [-1]⟩] [[]]).getD []

/-- A concrete cache object wrapping `cacheBufferOne`. -/
def cacheObjOne : CoreCache := ⟨cacheBufferOne, [typeR1], [typeR1]⟩

/-! ## Codec round-trip lemmas -/

theorem encLE_length (w n : Nat) : (encLE w n).length = w := by
  induction w generalizing n with
  | zero => rfl
  | succ w ih => simp [encLE, ih]

theorem decLE_encLE (w n : Nat) : decLE (encLE w n) = n % 256 ^ w := by
  induction w generalizing n with
  | zero => simp [encLE, decLE, Nat.mod_one]
  | succ w ih =>
    simp only [encLE, decLE, ih]
    rw [pow_succ, mul_comm (256 ^ w) 256, Nat.mod_mul]

theorem takeBytes_append (xs rest : List Nat) :
    takeBytes xs.length (xs ++ rest) = some (xs, rest) := by
  simp [takeBytes, List.take_append, List.drop_append]

theorem deserializeSizeT_roundtrip (n : Nat) (r : List Nat) (h : n < 2 ^ 64) :
    deserializeSizeT (serializeSizeT n ++ r) = some (n, r) := by
  have hlen : (encLE 8 n).length = 8 := encLE_length 8 n
  have htake := takeBytes_append (encLE 8 n) r
  rw [hlen] at htake
  simp only [deserializeSizeT, serializeSizeT]
  rw [htake]
  simp only [Option.map_some']
  rw [decLE_encLE]
  congr 1
  have : (256 : Nat) ^ 8 = 2 ^ 64 := by norm_num
  rw [this]
  exact congrArg (fun x => (x, r)) (Nat.mod_eq_of_lt h)

theorem deserializeInt32_roundtrip (i : Int) (r : List Nat)
    (h1 : -2147483648 ≤ i) (h2 : i < 2147483648) :
    deserializeInt32 (serializeInt32 i ++ r) = some (i, r) := by
  have hlen : (encLE 4 (i % 4294967296).toNat).length = 4 := encLE_length 4 _
  have htake := takeBytes_append (encLE 4 (i % 4294967296).toNat) r
  rw [hlen] at htake
  simp only [deserializeInt32, serializeInt32]
  rw [htake]
  simp only [Option.map_some']
  rw [decLE_encLE]
  have hlt : (i % 4294967296).toNat < 4294967296 := by
    have h0 : (0 : Int) ≤ i % 4294967296 := Int.emod_nonneg i (by norm_num)
    have hub : i % 4294967296 < 4294967296 := Int.emod_lt_of_pos i (by norm_num)
    omega
  have hmod : (i % 4294967296).toNat % 256 ^ 4 = (i % 4294967296).toNat := by
    have : (256 : Nat) ^ 4 = 4294967296 := by norm_num
    rw [this]; exact Nat.mod_eq_of_lt hlt
  rw [hmod]
  have hemod : i % 4294967296 = ((i % 4294967296).toNat : Int) := by
    have h0 : (0 : Int) ≤ i % 4294967296 := Int.emod_nonneg i (by norm_num)
    omega
  rcases le_or_lt 0 i with hpos | hneg
  · have heq : i % 4294967296 = i := Int.emod_eq_of_lt hpos (by omega)
    have htn : (i % 4294967296).toNat = i.toNat := by rw [heq]
    rw [htn]
    have hsm : i.toNat < 2147483648 := by omega
    simp only [if_pos hsm]
    congr 1
    exact congrArg (fun x => (x, r)) (by omega)
  · have heq : i % 4294967296 = i + 4294967296 := by omega
    have htn : ((i % 4294967296).toNat : Int) = i + 4294967296 := by omega
    have hge : ¬ (i % 4294967296).toNat < 2147483648 := by omega
    simp only [if_neg hge]
    congr 1
    exact congrArg (fun x => (x, r)) (by omega)

theorem deserializeBool_roundtrip (b : Bool) (r : List Nat) :
    deserializeBool (serializeBool b ++ r) = some (b, r) := by
  cases b <;> simp [serializeBool, deserializeBool]

theorem deserializeBytes_roundtrip (v : List Nat) (r : List Nat)
    (h : v.length < 2 ^ 64) :
    deserializeBytes (serializeBytes v ++ r) = some (v, r) := by
  simp only [deserializeBytes, serializeBytes, List.append_assoc]
  rw [deserializeSizeT_roundtrip v.length (v ++ r) h]
  simp only [Option.bind_eq_bind, Option.some_bind]
  exact takeBytes_append v r

theorem deserializeInt32s_roundtrip (v : List Int) (r : List Nat)
    (h : ∀ x ∈ v, -2147483648 ≤ x ∧ x < 2147483648) :
    deserializeInt32s v.length (v.flatMap serializeInt32 ++ r) = some (v, r) := by
  induction v with
  | nil => simp [deserializeInt32s]
  | cons x xs ih =>
    have hx := h x (List.mem_cons_self x xs)
    simp only [List.flatMap_cons, List.length_cons, deserializeInt32s,
      List.append_assoc]
    rw [deserializeInt32_roundtrip x _ hx.1 hx.2]
    simp only [Option.bind_eq_bind, Option.some_bind]
    rw [ih (fun y hy => h y (List.mem_cons_of_mem x hy))]
    rfl

theorem deserializeIntVec_roundtrip (v : List Int) (r : List Nat)
    (hlen : v.length < 2 ^ 64)
    (h : ∀ x ∈ v, -2147483648 ≤ x ∧ x < 2147483648) :
    deserializeIntVec (serializeIntVec v ++ r) = some (v, r) := by
  simp only [deserializeIntVec, serializeIntVec, List.append_assoc]
  rw [deserializeSizeT_roundtrip v.length _ hlen]
  simp only [Option.bind_eq_bind, Option.some_bind]
  exact deserializeInt32s_roundtrip v r h

theorem deserializeSubModelEntry_roundtrip {M : Type}
    (serializeModel : M → List Nat) (deserializeModel : List Nat → Option M)
    (sm : SubModel M) (cache : List Nat) (r : List Nat)
    (hwf : SubModelWF serializeModel deserializeModel sm cache) :
    ∃ m2, deserializeModel (serializeModel sm.model) = some m2 ∧
      deserializeSubModelEntry deserializeModel
        (serializeSubModelEntry serializeModel sm cache ++ r) =
      some ({ sm with model := m2 }, cache, r) := by
  obtain ⟨hml, hms, hd1, hd2, hil, hir, hol, hor, hcl⟩ := hwf
  obtain ⟨m2, hm2⟩ := Option.isSome_iff_exists.mp hms
  refine ⟨m2, hm2, ?_⟩
  simp only [deserializeSubModelEntry, serializeSubModelEntry,
    List.append_assoc]
  rw [deserializeInt32_roundtrip sm.device_id _ hd1 hd2]
  simp only [Option.bind_eq_bind, Option.some_bind]
  rw [deserializeBytes_roundtrip _ _ hml]
  simp only [Option.some_bind]
  rw [hm2]
  simp only [Option.some_bind]
  rw [deserializeBool_roundtrip sm.flag]
  simp only [Option.some_bind]
  rw [deserializeIntVec_roundtrip _ _ hil hir]
  simp only [Option.some_bind]
  rw [deserializeIntVec_roundtrip _ _ hol hor]
  simp only [Option.some_bind]
  rw [deserializeBytes_roundtrip _ _ hcl]
  rfl

theorem deserializeLoop_roundtrip {M : Type}
    (serializeModel : M → List Nat) (deserializeModel : List Nat → Option M)
    (sub_models : List (SubModel M)) (sub_caches : List (List Nat))
    (r : List Nat) (entries : List Nat)
    (hlen : sub_caches.length = sub_models.length)
    (hwf : ∀ p ∈ sub_models.zip sub_caches,
      SubModelWF serializeModel deserializeModel p.1 p.2)
    (hser : serializeEntries serializeModel sub_models sub_caches =
      some entries) :
    ∃ ms, deserializeLoop deserializeModel sub_models.length (entries ++ r) =
        some (ms, sub_caches, r) ∧
      ms.length = sub_models.length ∧
      ms.map SubModel.device_id = sub_models.map SubModel.device_id ∧
      ms.map SubModel.flag = sub_models.map SubModel.flag ∧
      ms.map SubModel.input_indexes = sub_models.map SubModel.input_indexes ∧
      ms.map SubModel.output_indexes = sub_models.map SubModel.output_indexes := by
  induction sub_models generalizing sub_caches entries r with
  | nil =>
    cases sub_caches with
    | nil =>
      simp only [serializeEntries, Option.some_inj] at hser
      subst hser
      exact ⟨[], by simp [deserializeLoop], rfl, rfl, rfl, rfl, rfl⟩
    | cons c cs => simp at hlen
  | cons sm rest ih =>
    cases sub_caches with
    | nil => simp at hlen
    | cons c cs =>
      simp only [serializeEntries] at hser
      cases hrest : serializeEntries serializeModel rest cs with
      | none => rw [hrest] at hser; simp at hser
      | some restEntries =>
        rw [hrest] at hser
        simp only [Option.map_some', Option.some_inj] at hser
        subst hser
        have hw1 := hwf (sm, c) (by simp [List.zip_cons_cons])
        obtain ⟨m2, _hm2, hentry⟩ :=
          deserializeSubModelEntry_roundtrip serializeModel deserializeModel
            sm c (restEntries ++ r) hw1
        have hlen2 : cs.length = rest.length := by
          simpa using hlen
        have hwf2 : ∀ p ∈ rest.zip cs,
            SubModelWF serializeModel deserializeModel p.1 p.2 := by
          intro p hp
          exact hwf p (List.mem_cons_of_mem _ (by simpa [List.zip_cons_cons] using hp))
        obtain ⟨ms, hloop, hl, hdev, hflag, hin, hout⟩ :=
          ih cs r restEntries hlen2 hwf2 hrest
        refine ⟨{ sm with model := m2 } :: ms, ?_, by simp [hl], ?_, ?_, ?_, ?_⟩
        · simp only [List.length_cons, deserializeLoop, List.append_assoc]
          rw [hentry]
          simp only [Option.bind_eq_bind, Option.some_bind]
          rw [hloop]
          rfl
        · simp [hdev]
        · simp [hflag]
        · simp [hin]
        · simp [hout]

/-- C1: for every compiled program state (sub-model list plus matching
per-sub-model cache slices, all machine-representable and with a working
external model codec), `DeserializeFromCache` applied to the buffer
produced by `SerializeToCache` succeeds — hence consumes the buffer
exactly, since any remaining byte is rejected as fatal corruption — and
reconstructs a sub-model list of the same length whose entries carry, at
every position, the same backend id, ownership flag, input index list and
output index list, together with the identical per-sub-model cache
bytes. -/
theorem Program.serializeToCache_deserializeFromCache_roundtrip {M : Type}
    (serializeModel : M → List Nat) (deserializeModel : List Nat → Option M)
    (sub_models : List (SubModel M)) (sub_caches : List (List Nat))
    (hlen : sub_caches.length = sub_models.length)
    (hn : sub_models.length < 2 ^ 64)
    (hwf : ∀ p ∈ sub_models.zip sub_caches,
      SubModelWF serializeModel deserializeModel p.1 p.2) :
    ∃ buffer ms,
      Program.SerializeToCache serializeModel sub_models sub_caches =
        some buffer ∧
      Program.DeserializeFromCache deserializeModel buffer =
        some (ms, sub_caches) ∧
      ms.length = sub_models.length ∧
      ms.map SubModel.device_id = sub_models.map SubModel.device_id ∧
      ms.map SubModel.flag = sub_models.map SubModel.flag ∧
      ms.map SubModel.input_indexes = sub_models.map SubModel.input_indexes ∧
      ms.map SubModel.output_indexes = sub_models.map SubModel.output_indexes := by
  have hser : ∃ entries,
      serializeEntries serializeModel sub_models sub_caches = some entries := by
    clear hwf hn
    induction sub_models generalizing sub_caches with
    | nil => exact ⟨[], rfl⟩
    | cons sm rest ih =>
      cases sub_caches with
      | nil => simp at hlen
      | cons c cs =>
        obtain ⟨es, hes⟩ := ih cs (by simpa using hlen)
        exact ⟨serializeSubModelEntry serializeModel sm c ++ es, by
          simp [serializeEntries, hes]⟩
  obtain ⟨entries, hentries⟩ := hser
  obtain ⟨ms, hloop, hl, hdev, hflag, hin, hout⟩ :=
    deserializeLoop_roundtrip serializeModel deserializeModel sub_models
      sub_caches [] entries hlen hwf hentries
  refine ⟨serializeSizeT sub_models.length ++ entries, ms, ?_, ?_, hl, hdev,
    hflag, hin, hout⟩
  · simp [Program.SerializeToCache, hentries]
  · simp only [Program.DeserializeFromCache]
    rw [deserializeSizeT_roundtrip sub_models.length entries hn]
    simp only [Option.bind_eq_bind, Option.some_bind]
    rw [List.append_nil] at hloop
    rw [hloop]
    rfl

/-- Witness for C1 at a concrete two-sub-model program (models serialized
by the identity codec). -/
theorem Program.serializeToCache_roundtrip_witness :
    (([[9], [6, 7]] : List (List Nat)).length =
      ([⟨0, [1, 2], false, [-1], [0]⟩,
        ⟨2, [3], true, [0, -2], [-1]⟩] : List (SubModel (List Nat))).length) ∧
    (([⟨0, [1, 2], false, [-1], [0]⟩,
       ⟨2, [3], true, [0, -2], [-1]⟩] : List (SubModel (List Nat))).length
        < 2 ^ 64) ∧
    (∀ p ∈ ([⟨0, [1, 2], false, [-1], [0]⟩,
             ⟨2, [3], true, [0, -2], [-1]⟩] :
              List (SubModel (List Nat))).zip [[9], [6, 7]],
      SubModelWF id some p.1 p.2) ∧
    (∃ buffer ms,
      Program.SerializeToCache id
        [⟨0, [1, 2], false, [-1], [0]⟩, ⟨2, [3], true, [0, -2], [-1]⟩]
        [[9], [6, 7]] = some buffer ∧
      Program.DeserializeFromCache some buffer = some (ms, [[9], [6, 7]]) ∧
      ms.length = 2 ∧
      ms.map SubModel.device_id = [0, 2] ∧
      ms.map SubModel.flag = [false, true] ∧
      ms.map SubModel.input_indexes = [[-1], [0, -2]] ∧
      ms.map SubModel.output_indexes = [[0], [-1]]) := by
  refine ⟨by decide, by decide, by decide, ?_⟩
  exact Program.serializeToCache_deserializeFromCache_roundtrip id some
    [⟨0, [1, 2], false, [-1], [0]⟩, ⟨2, [3], true, [0, -2], [-1]⟩]
    [[9], [6, 7]] (by decide) (by decide) (by decide)

/-! ## C10: output arguments never influence input validation -/

/-- C10: for every fixed set of input arguments, `CheckInputsAndOutputs`
is independent of the output arguments: any two output-argument arrays and
output counts supplied with the same inputs give the same result — output
shapes are never validated although they are parameters of the call. -/
theorem Program.checkInputsAndOutputs_independent_of_outputs {V : Type}
    (input_types : List OperandType) (input_count : Nat)
    (input_arguments : List (Argument V))
    (output_count1 output_count2 : Nat)
    (output_arguments1 output_arguments2 : List (Argument V)) :
    Program.CheckInputsAndOutputs input_types input_count input_arguments
      output_count1 output_arguments1 =
    Program.CheckInputsAndOutputs input_types input_count input_arguments
      output_count2 output_arguments2 := rfl

/-! ## C9: device-id resolution -/

/-- C9: for every configured device-id value `d`, the resolved device id
equals `d` when `d > 0` and equals 0 otherwise; in particular an explicit
0 and an unset value (parsed as 0) both collapse to device 0. -/
theorem Context.resolveDeviceId_clamps (d : Int) :
    (0 < d → Context.resolveDeviceId d = d) ∧
    (d ≤ 0 → Context.resolveDeviceId d = 0) := by
  constructor <;> intro h <;> simp [Context.resolveDeviceId] <;> omega

/-- Witness for C9 at the configured values 5, 0 and -3. -/
theorem Context.resolveDeviceId_clamps_witness :
    Context.resolveDeviceId 5 = 5 ∧ Context.resolveDeviceId 0 = 0 ∧
    Context.resolveDeviceId (-3) = 0 :=
  ⟨(Context.resolveDeviceId_clamps 5).1 (by decide),
   (Context.resolveDeviceId_clamps 0).2 (by decide),
   (Context.resolveDeviceId_clamps (-3)).2 (by decide)⟩

/-! ## C4: failed validation leaves the tensor maps untouched -/

/-- C4: whenever the up-front validation reports the recoverable
invalid-dimensions error, `Execute` returns that error with the program
state — in particular the input, temporary and output tensor maps —
exactly as it received it: no input tensor is written and no sub-program
is run. -/
theorem Program.execute_invalid_dimensions_preserves_state {M V : Type}
    (sem : SubProgramRec M → List V → List V)
    (input_count : Nat) (input_arguments : List (Argument V))
    (output_count : Nat) (output_arguments : List (Argument V))
    (s : ProgramState M V)
    (h : Program.CheckInputsAndOutputs s.input_types_ input_count
      input_arguments output_count output_arguments = .invalidDimensions) :
    Program.Execute sem input_count input_arguments output_count
      output_arguments s = some (.invalidDimensions, s) := by
  simp only [Program.Execute, h]

/-- Witness for C4: a rank-1 argument against a declared rank-2 input. -/
theorem Program.execute_invalid_dimensions_witness :
    Program.CheckInputsAndOutputs stateR2.input_types_ 1 [argR1] 0 [] =
      .invalidDimensions ∧
    Program.Execute semCopy 1 [argR1] 0 [] stateR2 =
      some (.invalidDimensions, stateR2) :=
  ⟨by decide,
   Program.execute_invalid_dimensions_preserves_state semCopy 1 [argR1] 0 []
     stateR2 (by decide)⟩

/-! ## C3: backend classification of operations -/

/-- Membership in the cuda bucket. -/
theorem mem_supportedOperations_cuda (cuda_operations host_operations : List Nat)
    (ops : List Operation) (op : Operation) :
    op ∈ (Program.supportedOperations cuda_operations host_operations ops).cudaOps ↔
      op ∈ ops ∧ op.type ∈ cuda_operations := by
  induction ops with
  | nil => simp [Program.supportedOperations]
  | cons o rest ih =>
    by_cases hc : o.type ∈ cuda_operations
    · by_cases he : op = o
      · subst he
        simp [Program.supportedOperations, hc, ih]
      · simp only [Program.supportedOperations, if_pos hc]
        simp [List.mem_cons, he, ih]
    · by_cases hh : o.type ∈ host_operations
      · simp only [Program.supportedOperations, if_neg hc, if_pos hh]
        constructor
        · intro hm
          obtain ⟨h1, h2⟩ := ih.mp hm
          exact ⟨List.mem_cons_of_mem _ h1, h2⟩
        · intro ⟨h1, h2⟩
          rcases List.mem_cons.mp h1 with he | hm
          · subst he; exact absurd h2 hc
          · exact ih.mpr ⟨hm, h2⟩
      · simp only [Program.supportedOperations, if_neg hc, if_neg hh]
        constructor
        · intro hm
          obtain ⟨h1, h2⟩ := ih.mp hm
          exact ⟨List.mem_cons_of_mem _ h1, h2⟩
        · intro ⟨h1, h2⟩
          rcases List.mem_cons.mp h1 with he | hm
          · subst he; exact absurd h2 hc
          · exact ih.mpr ⟨hm, h2⟩

/-- Membership in the host bucket. -/
theorem mem_supportedOperations_host (cuda_operations host_operations : List Nat)
    (ops : List Operation) (op : Operation) :
    op ∈ (Program.supportedOperations cuda_operations host_operations ops).hostOps ↔
      op ∈ ops ∧ op.type ∉ cuda_operations ∧ op.type ∈ host_operations := by
  induction ops with
  | nil => simp [Program.supportedOperations]
  | cons o rest ih =>
    by_cases hc : o.type ∈ cuda_operations
    · simp only [Program.supportedOperations, if_pos hc]
      constructor
      · intro hm
        obtain ⟨h1, h2⟩ := ih.mp hm
        exact ⟨List.mem_cons_of_mem _ h1, h2⟩
      · intro ⟨h1, h2, h3⟩
        rcases List.mem_cons.mp h1 with he | hm
        · subst he; exact absurd hc h2
        · exact ih.mpr ⟨hm, h2, h3⟩
    · by_cases hh : o.type ∈ host_operations
      · by_cases he : op = o
        · subst he
          simp [Program.supportedOperations, hc, hh, ih]
        · simp only [Program.supportedOperations, if_neg hc, if_pos hh]
          simp [List.mem_cons, he, ih]
      · simp only [Program.supportedOperations, if_neg hc, if_neg hh]
        constructor
        · intro hm
          obtain ⟨h1, h2⟩ := ih.mp hm
          exact ⟨List.mem_cons_of_mem _ h1, h2⟩
        · intro ⟨h1, h2, h3⟩
          rcases List.mem_cons.mp h1 with he | hm
          · subst he; exact absurd h3 hh
          · exact ih.mpr ⟨hm, h2, h3⟩

/-- Membership in the default (tensorrt) bucket. -/
theorem mem_supportedOperations_tensorrt
    (cuda_operations host_operations : List Nat)
    (ops : List Operation) (op : Operation) :
    op ∈ (Program.supportedOperations cuda_operations host_operations
        ops).tensorrtOps ↔
      op ∈ ops ∧ op.type ∉ cuda_operations ∧ op.type ∉ host_operations := by
  induction ops with
  | nil => simp [Program.supportedOperations]
  | cons o rest ih =>
    by_cases hc : o.type ∈ cuda_operations
    · simp only [Program.supportedOperations, if_pos hc]
      constructor
      · intro hm
        obtain ⟨h1, h2⟩ := ih.mp hm
        exact ⟨List.mem_cons_of_mem _ h1, h2⟩
      · intro ⟨h1, h2, h3⟩
        rcases List.mem_cons.mp h1 with he | hm
        · subst he; exact absurd hc h2
        · exact ih.mpr ⟨hm, h2, h3⟩
    · by_cases hh : o.type ∈ host_operations
      · simp only [Program.supportedOperations, if_neg hc, if_pos hh]
        constructor
        · intro hm
          obtain ⟨h1, h2⟩ := ih.mp hm
          exact ⟨List.mem_cons_of_mem _ h1, h2⟩
        · intro ⟨h1, h2, h3⟩
          rcases List.mem_cons.mp h1 with he | hm
          · subst he; exact absurd hh h3
          · exact ih.mpr ⟨hm, h2, h3⟩
      · by_cases he : op = o
        · subst he
          simp [Program.supportedOperations, hc, hh, ih]
        · simp only [Program.supportedOperations, if_neg hc, if_neg hh]
          simp [List.mem_cons, he, ih]

/-- C3: for every model and every pair of backend allow-lists, the
classification step places each operation of the model in exactly one
backend bucket with the precedence compute (cuda, id 1) allow-list first,
then host (id 2) allow-list, else the accelerator default (id 0). -/
theorem Program.supportedOperations_partition
    (cuda_operations host_operations : List Nat) (ops : List Operation)
    (op : Operation) :
    (op ∈ (Program.supportedOperations cuda_operations host_operations
        ops).forDevice 1 ↔ op ∈ ops ∧ op.type ∈ cuda_operations) ∧
    (op ∈ (Program.supportedOperations cuda_operations host_operations
        ops).forDevice 2 ↔
      op ∈ ops ∧ op.type ∉ cuda_operations ∧ op.type ∈ host_operations) ∧
    (op ∈ (Program.supportedOperations cuda_operations host_operations
        ops).forDevice 0 ↔
      op ∈ ops ∧ op.type ∉ cuda_operations ∧ op.type ∉ host_operations) ∧
    (op ∈ ops → ∃! d : Fin 3,
      op ∈ (Program.supportedOperations cuda_operations host_operations
        ops).forDevice d.val) := by
  refine ⟨mem_supportedOperations_cuda _ _ _ _,
    mem_supportedOperations_host _ _ _ _,
    mem_supportedOperations_tensorrt _ _ _ _, ?_⟩
  intro hmem
  by_cases hc : op.type ∈ cuda_operations
  · refine ⟨1, (mem_supportedOperations_cuda _ _ _ _).mpr ⟨hmem, hc⟩, ?_⟩
    intro d hd
    fin_cases d
    · exact absurd ((mem_supportedOperations_tensorrt _ _ _ _).mp hd).2.1 (by
        simp [hc])
    · rfl
    · exact absurd ((mem_supportedOperations_host _ _ _ _).mp hd).2.1 (by
        simp [hc])
  · by_cases hh : op.type ∈ host_operations
    · refine ⟨2, (mem_supportedOperations_host _ _ _ _).mpr ⟨hmem, hc, hh⟩, ?_⟩
      intro d hd
      fin_cases d
      · exact absurd ((mem_supportedOperations_tensorrt _ _ _ _).mp hd).2.2 (by
          simp [hh])
      · exact absurd ((mem_supportedOperations_cuda _ _ _ _).mp hd).2 hc
      · rfl
    · refine ⟨0, (mem_supportedOperations_tensorrt _ _ _ _).mpr
        ⟨hmem, hc, hh⟩, ?_⟩
      intro d hd
      fin_cases d
      · rfl
      · exact absurd ((mem_supportedOperations_cuda _ _ _ _).mp hd).2 hc
      · exact absurd ((mem_supportedOperations_host _ _ _ _).mp hd).2.2 hh

/-- Witness for C3 on a concrete 3-operation model with allow-lists
cuda = [10] and host = [10, 20]. -/
theorem Program.supportedOperations_partition_witness :
    (Operation.mk 10 ∈ (Program.supportedOperations [10] [10, 20]
      [⟨10⟩, ⟨20⟩, ⟨30⟩]).forDevice 1 ↔
      Operation.mk 10 ∈ ([⟨10⟩, ⟨20⟩, ⟨30⟩] : List Operation) ∧
        (10 : Nat) ∈ [10]) ∧
    (Operation.mk 10 ∈ (Program.supportedOperations [10] [10, 20]
      [⟨10⟩, ⟨20⟩, ⟨30⟩]).forDevice 2 ↔
      Operation.mk 10 ∈ ([⟨10⟩, ⟨20⟩, ⟨30⟩] : List Operation) ∧
        (10 : Nat) ∉ [10] ∧ (10 : Nat) ∈ [10, 20]) ∧
    (Operation.mk 10 ∈ (Program.supportedOperations [10] [10, 20]
      [⟨10⟩, ⟨20⟩, ⟨30⟩]).forDevice 0 ↔
      Operation.mk 10 ∈ ([⟨10⟩, ⟨20⟩, ⟨30⟩] : List Operation) ∧
        (10 : Nat) ∉ [10] ∧ (10 : Nat) ∉ [10, 20]) ∧
    (Operation.mk 10 ∈ ([⟨10⟩, ⟨20⟩, ⟨30⟩] : List Operation) → ∃! d : Fin 3,
      Operation.mk 10 ∈ (Program.supportedOperations [10] [10, 20]
        [⟨10⟩, ⟨20⟩, ⟨30⟩]).forDevice d.val) :=
  Program.supportedOperations_partition [10] [10, 20] [⟨10⟩, ⟨20⟩, ⟨30⟩] ⟨10⟩

/-! ## C6: int8 with dynamic shapes fails before compilation -/

/-- The optimization-profile loop never emits the compilation step. -/
theorem buildEngine_not_mem_profileLoop (convertDyn : OperandType → OperandType)
    (operands : List Operand) :
    BuildEvent.buildEngine ∉ (profileLoop convertDyn operands).1 := by
  induction operands with
  | nil => simp [profileLoop]
  | cons o rest ih =>
    by_cases h0 : o.type.dimensions.dynamic_count = 0
    · simpa [profileLoop, h0] using ih
    · by_cases h3 : (convertDyn o.type).dimensions.dynamic_count ≠ 3
      · simp [profileLoop, h0, h3]
      · simpa [profileLoop, h0, h3] using ih

/-- Under normalized dynamic descriptors the profile loop completes
without a fatal check. -/
theorem profileLoop_no_fatal (convertDyn : OperandType → OperandType)
    (operands : List Operand)
    (hwf : ∀ o ∈ operands, o.type.dimensions.dynamic_count ≠ 0 →
      (convertDyn o.type).dimensions.dynamic_count = 3) :
    (profileLoop convertDyn operands).2 = none := by
  induction operands with
  | nil => simp [profileLoop]
  | cons o rest ih =>
    have hrest := ih (fun o ho => hwf o (List.mem_cons_of_mem _ ho))
    by_cases h0 : o.type.dimensions.dynamic_count = 0
    · simpa [profileLoop, h0] using hrest
    · have h3 := hwf o (List.mem_cons_self o rest) h0
      simpa [profileLoop, h0, h3] using hrest

/-- C6: for every accelerator sub-program whose configured precision mode
is int8 and whose sub-graph has at least one dynamic-shaped input (with
well-formed dynamic descriptors, so the profile loop itself passes),
`BuildFromModel` fails fatally at the int8/dynamic-shape incompatibility
check, and the device compilation step (`buildEngine`) never appears in the
performed steps. -/
theorem TensorrtProgram.buildFromModel_int8_dynamic_fails_before_compile
    (ctx : Context) (convertDyn : OperandType → OperandType)
    (isDynamic : Operand → Bool) (model : CoreModel)
    (hprec : ctx.precision = .kInt8)
    (hdyn : model.input_operands.any isDynamic = true)
    (hwf : ∀ o ∈ model.input_operands, o.type.dimensions.dynamic_count ≠ 0 →
      (convertDyn o.type).dimensions.dynamic_count = 3) :
    (TensorrtProgram.BuildFromModel ctx convertDyn isDynamic model).2 =
      some .int8IncompatibleWithDynamicShape ∧
    BuildEvent.buildEngine ∉
      (TensorrtProgram.BuildFromModel ctx convertDyn isDynamic model).1 := by
  have hprof := profileLoop_no_fatal convertDyn model.input_operands hwf
  have hp := buildEngine_not_mem_profileLoop convertDyn model.input_operands
  have hconf2 : (TensorrtProgram.CompleteConfig ctx convertDyn true model).2 =
      some .int8IncompatibleWithDynamicShape := by
    simp [TensorrtProgram.CompleteConfig, hprof, hprec]
  have hconf1 : BuildEvent.buildEngine ∉
      (TensorrtProgram.CompleteConfig ctx convertDyn true model).1 := by
    cases hdt : ctx.device_type <;> cases hgf : ctx.gpu_fallback <;>
      simp [TensorrtProgram.CompleteConfig, hprof, hprec, hdt, hgf, hp]
  constructor
  · simp only [TensorrtProgram.BuildFromModel, hdyn]
    rw [hconf2]
  · simp only [TensorrtProgram.BuildFromModel, hdyn]
    rw [hconf2]
    simp only [List.mem_append, List.mem_cons]
    intro hmem
    rcases hmem with h | h
    · simp at h
    · exact hconf1 h

/-- Witness for C6: an int8 context and a model with a single
dynamic-shaped input carrying an {opt, min, max} triple. -/
theorem TensorrtProgram.buildFromModel_int8_dynamic_witness :
    (({ device_type := .kGPU, device_id := 0, precision := .kInt8,
        gpu_fallback := false, cuda_operations := [],
        host_operations := [] } : Context).precision = .kInt8) ∧
    (((⟨[⟨⟨0, ⟨[1], [[1], [1], [2]]⟩⟩⟩], [], []⟩ : CoreModel).input_operands.any
      (fun o => decide (o.type.dimensions.dynamic_count ≠ 0))) = true) ∧
    ((TensorrtProgram.BuildFromModel
      { device_type := .kGPU, device_id := 0, precision := .kInt8,
        gpu_fallback := false, cuda_operations := [], host_operations := [] }
      id (fun o => decide (o.type.dimensions.dynamic_count ≠ 0))
      ⟨[⟨⟨0, ⟨[1], [[1], [1], [2]]⟩⟩⟩], [], []⟩).2 =
        some .int8IncompatibleWithDynamicShape ∧
    BuildEvent.buildEngine ∉
      (TensorrtProgram.BuildFromModel
        { device_type := .kGPU, device_id := 0, precision := .kInt8,
          gpu_fallback := false, cuda_operations := [], host_operations := [] }
        id (fun o => decide (o.type.dimensions.dynamic_count ≠ 0))
        ⟨[⟨⟨0, ⟨[1], [[1], [1], [2]]⟩⟩⟩], [], []⟩).1) :=
  ⟨rfl, by decide,
   TensorrtProgram.buildFromModel_int8_dynamic_fails_before_compile
     { device_type := .kGPU, device_id := 0, precision := .kInt8,
       gpu_fallback := false, cuda_operations := [], host_operations := [] }
     id (fun o => decide (o.type.dimensions.dynamic_count ≠ 0))
     ⟨[⟨⟨0, ⟨[1], [[1], [1], [2]]⟩⟩⟩], [], []⟩ rfl (by decide) (by decide)⟩

/-! ## C7: Clear releases sub-graphs iff they came from a cache -/

/-- C7: at teardown, `Clear` releases exactly the sub-graphs of the
current sub-model entries when `is_sub_model_from_cache_` is set (the flag
that only `DeserializeFromCache` sets) and nothing otherwise; a freshly
constructed program carries the flag unset, a `Build` through the cache
path (non-empty buffer) leaves the flag set, and a `Build` through the
partitioning path leaves the flag as it was — in particular still unset on
a fresh program, so partition-derived sub-models are never freed. -/
theorem Program.clear_releases_iff_from_cache (M V : Type)
    (s : ProgramState M V) (m : M) (serializeModel : M → List Nat)
    (deserializeModel : List Nat → Option M)
    (modelInputTypes modelOutputTypes : List OperandType)
    (partitionResult : List (SubModel M))
    (subBuild : SubProgramRec M → List Nat → Option (List Nat))
    (convertDyn : OperandType → OperandType) (cache : CoreCache) :
    (m ∈ (Program.Clear s).2 ↔
      s.is_sub_model_from_cache_ = true ∧
        m ∈ s.sub_models_.map SubModel.model) ∧
    ((ProgramState.fresh M V).is_sub_model_from_cache_ = false) ∧
    (cache.buffer ≠ [] →
      (Program.Build serializeModel deserializeModel modelInputTypes
        modelOutputTypes partitionResult subBuild convertDyn cache s).map
          (fun r => r.1.is_sub_model_from_cache_) =
      (Program.Build serializeModel deserializeModel modelInputTypes
        modelOutputTypes partitionResult subBuild convertDyn cache s).map
          (fun _ => true)) ∧
    (cache.buffer = [] →
      (Program.Build serializeModel deserializeModel modelInputTypes
        modelOutputTypes partitionResult subBuild convertDyn cache s).map
          (fun r => r.1.is_sub_model_from_cache_) =
      (Program.Build serializeModel deserializeModel modelInputTypes
        modelOutputTypes partitionResult subBuild convertDyn cache s).map
          (fun _ => s.is_sub_model_from_cache_)) := by
  refine ⟨?_, rfl, ?_, ?_⟩
  · simp only [Program.Clear]
    by_cases hf : s.is_sub_model_from_cache_ <;> simp [hf]
  · intro hne
    simp only [Program.Build, if_neg hne]
    simp only [Program.BuildFromCache]
    cases hdes : Program.DeserializeFromCache deserializeModel cache.buffer with
    | none => rfl
    | some p =>
      cases hcreate : createSubPrograms
          (p.2 : List (List Nat)).length 0 (p.1 : List (SubModel M)) with
      | none => simp [hcreate]
      | some ps =>
        cases hbuild : buildSubPrograms subBuild ps p.2 with
        | none => simp [hcreate, hbuild]
        | some c2 => simp [hcreate, hbuild]
  · intro heq
    simp only [Program.Build, if_pos heq]
    simp only [Program.BuildFromModel]
    by_cases hpe : partitionResult.isEmpty
    · simp [hpe]
    · simp only [if_neg hpe]
      cases hcreate : createSubPrograms
          (List.replicate partitionResult.length ([] : List Nat)).length 0
          partitionResult with
      | none => simp [hcreate]
      | some ps =>
        cases hbuild : buildSubPrograms subBuild ps
            (List.replicate partitionResult.length []) with
        | none => simp [hcreate, hbuild]
        | some c2 =>
          cases hser : Program.SerializeToCache serializeModel
              partitionResult c2 with
          | none => simp [hcreate, hbuild, hser]
          | some buf => simp [hcreate, hbuild, hser, Program.Clear]

/-- Witness for C7: a cache-owned state whose Clear releases its (unit)
sub-graph, plus the flag behavior of a concrete from-cache Build and a
concrete from-model Build. -/
theorem Program.clear_releases_iff_from_cache_witness :
    (() ∈ (Program.Clear (⟨[⟨0, (), true, [-1], [-1]⟩], [[]], [],
        TMap.empty, TMap.empty, TMap.empty, [typeR1], [typeR1], true⟩ :
        ProgramState Unit Nat)).2 ↔
      ((⟨[⟨0, (), true, [-1], [-1]⟩], [[]], [], TMap.empty, TMap.empty,
          TMap.empty, [typeR1], [typeR1], true⟩ :
        ProgramState Unit Nat)).is_sub_model_from_cache_ = true ∧
        () ∈ ([⟨0, (), true, [-1], [-1]⟩] :
          List (SubModel Unit)).map SubModel.model) ∧
    ((ProgramState.fresh Unit Nat).is_sub_model_from_cache_ = false) ∧
    (cacheObjOne.buffer ≠ [] →
      (Program.Build (fun _ => []) (fun _ => some ()) [typeR1] [typeR1] []
        (fun _ c => some c) id cacheObjOne (ProgramState.fresh Unit Nat)).map
          (fun r => r.1.is_sub_model_from_cache_) =
      (Program.Build (fun _ => []) (fun _ => some ()) [typeR1] [typeR1] []
        (fun _ c => some c) id cacheObjOne (ProgramState.fresh Unit Nat)).map
          (fun _ => true)) ∧
    (emptyCache.buffer = [] →
      (Program.Build (fun _ => []) (fun _ => some ()) [typeR1] [typeR1]
        partitionTwo (fun _ c => some c) id emptyCache
        (ProgramState.fresh Unit Nat)).map
          (fun r => r.1.is_sub_model_from_cache_) =
      (Program.Build (fun _ => []) (fun _ => some ()) [typeR1] [typeR1]
        partitionTwo (fun _ c => some c) id emptyCache
        (ProgramState.fresh Unit Nat)).map
          (fun _ => (ProgramState.fresh Unit Nat).is_sub_model_from_cache_)) :=
  ⟨(Program.clear_releases_iff_from_cache Unit Nat _ () (fun _ => [])
      (fun _ => some ()) [typeR1] [typeR1] [] (fun _ c => some c) id
      cacheObjOne).1,
   (Program.clear_releases_iff_from_cache Unit Nat
      (ProgramState.fresh Unit Nat) () (fun _ => []) (fun _ => some ())
      [typeR1] [typeR1] [] (fun _ c => some c) id cacheObjOne).2.1,
   (Program.clear_releases_iff_from_cache Unit Nat
      (ProgramState.fresh Unit Nat) () (fun _ => []) (fun _ => some ())
      [typeR1] [typeR1] [] (fun _ c => some c) id cacheObjOne).2.2.1,
   (Program.clear_releases_iff_from_cache Unit Nat
      (ProgramState.fresh Unit Nat) () (fun _ => []) (fun _ => some ())
      [typeR1] [typeR1] partitionTwo (fun _ c => some c) id
      emptyCache).2.2.2⟩

/-! ## C8: container sizes and construction order after Build -/

/-- The sub-program creation loop yields one sub-program per sub-model, the
j-th constructed from the j-th sub-model and the (i+j)-th cache slice. -/
theorem createSubPrograms_spec {M : Type} (cacheLen : Nat) :
    ∀ (sms : List (SubModel M)) (i : Nat) (ps : List (SubProgramRec M)),
      createSubPrograms cacheLen i sms = some ps →
      ps.length = sms.length ∧
      ∀ j : Nat, ps[j]? = (sms[j]?).bind (mkSubProgram (i + j)) := by
  intro sms
  induction sms with
  | nil =>
    intro i ps h
    simp only [createSubPrograms, Option.some_inj] at h
    subst h
    simp
  | cons sm rest ih =>
    intro i ps h
    simp only [createSubPrograms] at h
    split at h
    · cases hmk : mkSubProgram i sm with
      | none => rw [hmk] at h; simp at h
      | some p =>
        rw [hmk] at h
        cases hrest : createSubPrograms cacheLen (i + 1) rest with
        | none => rw [hrest] at h; simp at h
        | some ps2 =>
          rw [hrest] at h
          simp only [Option.map_some', Option.some_inj] at h
          subst h
          obtain ⟨hlen, hcorr⟩ := ih (i + 1) ps2 hrest
          refine ⟨by simp [hlen], ?_⟩
          intro j
          cases j with
          | zero => simpa using hmk.symm
          | succ j2 =>
            have hstep : i + (j2 + 1) = (i + 1) + j2 := by omega
            simpa [hstep] using hcorr j2
    · simp at h

/-- Building the sub-programs only rewrites cache slices in place and so
preserves the number of slices. -/
theorem buildSubPrograms_length {M : Type}
    (subBuild : SubProgramRec M → List Nat → Option (List Nat)) :
    ∀ (ps : List (SubProgramRec M)) (caches c2 : List (List Nat)),
      buildSubPrograms subBuild ps caches = some c2 →
      c2.length = caches.length := by
  intro ps
  induction ps with
  | nil =>
    intro caches c2 h
    simp only [buildSubPrograms, Option.some_inj] at h
    subst h
    rfl
  | cons p rest ih =>
    intro caches c2 h
    cases hidx : caches[p.cacheIndex]? with
    | none => simp [buildSubPrograms, hidx] at h
    | some c =>
      cases hb : subBuild p c with
      | none => simp [buildSubPrograms, hidx, hb] at h
      | some cnew =>
        simp only [buildSubPrograms, hidx, hb] at h
        have := ih (caches.set p.cacheIndex cnew) c2 h
        simpa [List.length_set] using this

/-- The deserialization loop emplaces exactly one cache slice per
reconstructed sub-model. -/
theorem deserializeLoop_lengths {M : Type}
    (deserializeModel : List Nat → Option M) :
    ∀ (n : Nat) (bs : List Nat) (ms : List (SubModel M))
      (cs : List (List Nat)) (r : List Nat),
      deserializeLoop deserializeModel n bs = some (ms, cs, r) →
      ms.length = n ∧ cs.length = n := by
  intro n
  induction n with
  | zero =>
    intro bs ms cs r h
    simp only [deserializeLoop, Option.some_inj, Prod.mk.injEq] at h
    obtain ⟨h1, h2, h3⟩ := h
    subst h1; subst h2
    exact ⟨rfl, rfl⟩
  | succ n2 ih =>
    intro bs ms cs r h
    cases hentry : deserializeSubModelEntry deserializeModel bs with
    | none => simp [deserializeLoop, hentry] at h
    | some entry =>
      obtain ⟨sm, c, bs1⟩ := entry
      cases hloop : deserializeLoop deserializeModel n2 bs1 with
      | none => simp [deserializeLoop, hentry, hloop] at h
      | some t =>
        obtain ⟨ms2, cs2, r2⟩ := t
        simp only [deserializeLoop, hentry, hloop, Option.bind_eq_bind,
          Option.some_bind, Option.some_inj, Prod.mk.injEq] at h
        obtain ⟨h1, h2, h3⟩ := h
        obtain ⟨hm, hc⟩ := ih bs1 ms2 cs2 r2 hloop
        subst h1; subst h2
        simp [hm, hc]

/-- Deserialization reconstructs as many cache slices as sub-models. -/
theorem Program.deserializeFromCache_lengths {M : Type}
    (deserializeModel : List Nat → Option M) (buffer : List Nat)
    (ms : List (SubModel M)) (cs : List (List Nat))
    (h : Program.DeserializeFromCache deserializeModel buffer =
      some (ms, cs)) : cs.length = ms.length := by
  cases hsz : deserializeSizeT buffer with
  | none => simp [Program.DeserializeFromCache, hsz] at h
  | some q =>
    obtain ⟨n, bs1⟩ := q
    cases hloop : deserializeLoop deserializeModel n bs1 with
    | none => simp [Program.DeserializeFromCache, hsz, hloop] at h
    | some t =>
      obtain ⟨ms2, cs2, r2⟩ := t
      simp only [Program.DeserializeFromCache, hsz, hloop,
        Option.bind_eq_bind, Option.some_bind] at h
      obtain ⟨hm, hc⟩ := deserializeLoop_lengths deserializeModel n bs1
        ms2 cs2 r2 hloop
      split at h
      · simp only [Option.some_inj, Prod.mk.injEq] at h
        obtain ⟨h1, h2⟩ := h
        subst h1; subst h2
        rw [hm, hc]
      · simp at h

/-- C8: after every successful `Build` — from a model or from a cache —
the three containers are equally sized, and the i-th sub-program was
constructed from the i-th sub-model and the i-th cache slice (execution
order equals partition order). -/
theorem Program.build_sizes_and_order {M V : Type}
    (serializeModel : M → List Nat) (deserializeModel : List Nat → Option M)
    (modelInputTypes modelOutputTypes : List OperandType)
    (partitionResult : List (SubModel M))
    (subBuild : SubProgramRec M → List Nat → Option (List Nat))
    (convertDyn : OperandType → OperandType) (cache : CoreCache)
    (s : ProgramState M V) (s1 : ProgramState M V) (buf : List Nat)
    (h : Program.Build serializeModel deserializeModel modelInputTypes
      modelOutputTypes partitionResult subBuild convertDyn cache s =
      some (s1, buf)) :
    s1.sub_programs_.length = s1.sub_models_.length ∧
    s1.sub_caches_.length = s1.sub_models_.length ∧
    ∀ i : Nat, s1.sub_programs_[i]? = (s1.sub_models_[i]?).bind (mkSubProgram i) := by
  simp only [Program.Build] at h
  cases hmid : (if cache.buffer = []
      then Program.BuildFromModel modelInputTypes modelOutputTypes
        partitionResult (Program.Clear s).1
      else Program.BuildFromCache deserializeModel cache
        (Program.Clear s).1) with
  | none => rw [hmid] at h; simp at h
  | some smid =>
    rw [hmid] at h
    simp only [] at h
    have hmidlen : smid.sub_caches_.length = smid.sub_models_.length := by
      by_cases hcb : cache.buffer = []
      · rw [if_pos hcb] at hmid
        simp only [Program.BuildFromModel] at hmid
        split at hmid
        · simp at hmid
        · simp only [Option.some_inj] at hmid
          subst hmid
          simp
      · rw [if_neg hcb] at hmid
        simp only [Program.BuildFromCache] at hmid
        cases hdes : Program.DeserializeFromCache deserializeModel
            cache.buffer with
        | none => rw [hdes] at hmid; simp at hmid
        | some p =>
          obtain ⟨ms, cs⟩ := p
          rw [hdes] at hmid
          simp only [Option.some_inj] at hmid
          subst hmid
          simpa using Program.deserializeFromCache_lengths deserializeModel
            cache.buffer ms cs hdes
    cases hcr : createSubPrograms smid.sub_caches_.length 0
        smid.sub_models_ with
    | none => rw [hcr] at h; simp at h
    | some ps =>
      rw [hcr] at h
      simp only [] at h
      cases hbd : buildSubPrograms subBuild ps smid.sub_caches_ with
      | none => rw [hbd] at h; simp at h
      | some caches2 =>
        rw [hbd] at h
        simp only [] at h
        cases hser : (if cache.buffer = []
            then Program.SerializeToCache serializeModel smid.sub_models_
              caches2
            else some cache.buffer) with
        | none => rw [hser] at h; simp at h
        | some buf2 =>
          rw [hser] at h
          simp only [Option.some_inj, Prod.mk.injEq] at h
          obtain ⟨hs1, hbuf⟩ := h
          obtain ⟨hlen, hcorr⟩ := createSubPrograms_spec
            smid.sub_caches_.length smid.sub_models_ 0 ps hcr
          have hc2 := buildSubPrograms_length subBuild ps smid.sub_caches_
            caches2 hbd
          subst hs1
          refine ⟨hlen, by rw [hc2, hmidlen], ?_⟩
          intro i
          simpa using hcorr i

/-- Witness for C8: a concrete first-build with one accelerator and one
host sub-model. -/
theorem Program.build_sizes_and_order_witness :
    Program.Build (fun _ => []) (fun _ => some ()) [typeR1] [typeR1]
      partitionTwo (fun _ c => some c) id emptyCache
      (ProgramState.fresh Unit Nat) =
      some ((Program.Build (fun _ => []) (fun _ => some ()) [typeR1] [typeR1]
        partitionTwo (fun _ c => some c) id emptyCache
        (ProgramState.fresh Unit Nat)).getD defaultBuilt) ∧
    (((Program.Build (fun _ => []) (fun _ => some ()) [typeR1] [typeR1]
        partitionTwo (fun _ c => some c) id emptyCache
        (ProgramState.fresh Unit Nat)).getD
          defaultBuilt).1.sub_programs_.length =
      ((Program.Build (fun _ => []) (fun _ => some ()) [typeR1] [typeR1]
        partitionTwo (fun _ c => some c) id emptyCache
        (ProgramState.fresh Unit Nat)).getD
          defaultBuilt).1.sub_models_.length ∧
    ((Program.Build (fun _ => []) (fun _ => some ()) [typeR1] [typeR1]
        partitionTwo (fun _ c => some c) id emptyCache
        (ProgramState.fresh Unit Nat)).getD
          defaultBuilt).1.sub_caches_.length =
      ((Program.Build (fun _ => []) (fun _ => some ()) [typeR1] [typeR1]
        partitionTwo (fun _ c => some c) id emptyCache
        (ProgramState.fresh Unit Nat)).getD
          defaultBuilt).1.sub_models_.length ∧
    ∀ i : Nat,
      ((Program.Build (fun _ => []) (fun _ => some ()) [typeR1] [typeR1]
        partitionTwo (fun _ c => some c) id emptyCache
        (ProgramState.fresh Unit Nat)).getD
          defaultBuilt).1.sub_programs_[i]? =
      (((Program.Build (fun _ => []) (fun _ => some ()) [typeR1] [typeR1]
        partitionTwo (fun _ c => some c) id emptyCache
        (ProgramState.fresh Unit Nat)).getD
          defaultBuilt).1.sub_models_[i]?).bind (mkSubProgram i)) :=
  ⟨rfl,
   Program.build_sizes_and_order (fun _ => []) (fun _ => some ())
     [typeR1] [typeR1] partitionTwo (fun _ c => some c) id emptyCache
     (ProgramState.fresh Unit Nat) _ _ rfl⟩

/-! ## C2: per-input validation against static and dynamic bounds -/

/-- The validation loop splits: a run of `b + c` inputs is the run of the
first `b` followed, when they all pass, by the run of the next `c`. -/
theorem checkInputsFrom_add {V : Type} (input_types : List OperandType)
    (input_arguments : List (Argument V)) :
    ∀ (b a c : Nat),
      checkInputsFrom input_types input_arguments a (b + c) =
        (match checkInputsFrom input_types input_arguments a b with
         | .noError => checkInputsFrom input_types input_arguments (a + b) c
         | e => e) := by
  intro b
  induction b with
  | zero => intro a c; simp [checkInputsFrom]
  | succ b2 ih =>
    intro a c
    have hsucc : b2 + 1 + c = (b2 + c) + 1 := by omega
    rw [hsucc]
    simp only [checkInputsFrom]
    cases hf : FindArgumentByIndex input_arguments a with
    | none => rfl
    | some arg =>
      simp only []
      cases ht : input_types[a]? with
      | none => rfl
      | some src =>
        simp only []
        cases hco : checkOneInput src arg.type with
        | noError =>
          simp only []
          rw [ih (a + 1) c]
          have harith : a + (b2 + 1) = a + 1 + b2 := by omega
          rw [harith]
        | invalidDimensions => rfl
        | fatal => rfl

/-- When the first `i` inputs pass, validating `i + 1` inputs reduces to
validating input `i` alone. -/
theorem checkInputsAndOutputs_last {V : Type} (input_types : List OperandType)
    (input_arguments : List (Argument V)) (output_count : Nat)
    (output_arguments : List (Argument V)) (i : Nat) (arg : Argument V)
    (src : OperandType)
    (hpre : checkInputsFrom input_types input_arguments 0 i = .noError)
    (hfind : FindArgumentByIndex input_arguments i = some arg)
    (hsrc : input_types[i]? = some src) :
    Program.CheckInputsAndOutputs input_types (i + 1) input_arguments
      output_count output_arguments = checkOneInput src arg.type := by
  show checkInputsFrom input_types input_arguments 0 (i + 1) = _
  rw [checkInputsFrom_add input_types input_arguments i 0 1, hpre]
  simp only [Nat.zero_add]
  simp only [checkInputsFrom, hfind, hsrc]
  cases hco : checkOneInput src arg.type <;> rfl

/-- The boolean dynamic-range scan holds exactly when every extent lies
within [min, max] inclusive. -/
theorem dimsWithinDynamicRange_iff (data minRow maxRow : List Int) :
    dimsWithinDynamicRange data minRow maxRow = true ↔
      ∀ j < data.length,
        minRow.getD j 0 ≤ data.getD j 0 ∧ data.getD j 0 ≤ maxRow.getD j 0 := by
  unfold dimsWithinDynamicRange
  rw [List.all_eq_true]
  constructor
  · intro h j hj
    have hh := h j (List.mem_range.mpr hj)
    simp only [Bool.not_eq_true', Bool.or_eq_false_iff,
      decide_eq_false_iff_not, not_lt, gt_iff_lt] at hh
    exact ⟨hh.1, hh.2⟩
  · intro h j hjm
    have hh := h j (List.mem_range.mp hjm)
    simp only [Bool.not_eq_true', Bool.or_eq_false_iff,
      decide_eq_false_iff_not, not_lt, gt_iff_lt]
    exact ⟨hh.1, hh.2⟩

/-- C2: for a declared input `i` (all earlier inputs passing), validation
returns the recoverable invalid-dimensions error — not a fatal abort —
when the supplied rank differs from the declared rank; when ranks match
but some static extent differs it requires the declared type to carry the
3-row dynamic {opt,min,max} data (fatal check otherwise) and accepts the
input exactly when every extent lies within [min, max] inclusive — an
extent equal to min or max passes, anything outside yields the
invalid-dimensions error. -/
theorem Program.checkInputsAndOutputs_dimension_gate {V : Type}
    (input_types : List OperandType) (input_arguments : List (Argument V))
    (output_count : Nat) (output_arguments : List (Argument V)) (i : Nat)
    (arg : Argument V) (src : OperandType)
    (hpre : checkInputsFrom input_types input_arguments 0 i = .noError)
    (hfind : FindArgumentByIndex input_arguments i = some arg)
    (hsrc : input_types[i]? = some src) :
    (arg.type.dimensions.count ≠ src.dimensions.count →
      Program.CheckInputsAndOutputs input_types (i + 1) input_arguments
        output_count output_arguments = .invalidDimensions) ∧
    (arg.type.dimensions.count = src.dimensions.count →
      arg.type.dimensions.data ≠ src.dimensions.data →
      src.dimensions.dynamic_count ≠ 3 →
      Program.CheckInputsAndOutputs input_types (i + 1) input_arguments
        output_count output_arguments = .fatal) ∧
    (arg.type.dimensions.count = src.dimensions.count →
      arg.type.dimensions.data ≠ src.dimensions.data →
      src.dimensions.dynamic_count = 3 →
      ((Program.CheckInputsAndOutputs input_types (i + 1) input_arguments
          output_count output_arguments = .noError ↔
        ∀ j < arg.type.dimensions.count,
          (src.dimensions.dynamic_data.getD 1 []).getD j 0 ≤
            arg.type.dimensions.data.getD j 0 ∧
          arg.type.dimensions.data.getD j 0 ≤
            (src.dimensions.dynamic_data.getD 2 []).getD j 0) ∧
       (Program.CheckInputsAndOutputs input_types (i + 1) input_arguments
          output_count output_arguments = .invalidDimensions ↔
        ¬ ∀ j < arg.type.dimensions.count,
          (src.dimensions.dynamic_data.getD 1 []).getD j 0 ≤
            arg.type.dimensions.data.getD j 0 ∧
          arg.type.dimensions.data.getD j 0 ≤
            (src.dimensions.dynamic_data.getD 2 []).getD j 0))) := by
  have hred := checkInputsAndOutputs_last input_types input_arguments
    output_count output_arguments i arg src hpre hfind hsrc
  refine ⟨?_, ?_, ?_⟩
  · intro hcount
    rw [hred]
    simp only [checkOneInput, if_pos hcount]
  · intro hcount hdata hdyn
    rw [hred]
    simp only [checkOneInput]
    rw [if_neg (by simpa using hcount), if_neg hdata, if_pos hdyn]
  · intro hcount hdata hdyn
    rw [hred]
    simp only [checkOneInput]
    rw [if_neg (by simpa using hcount), if_neg hdata,
      if_neg (by simpa using hdyn)]
    have hiff := dimsWithinDynamicRange_iff arg.type.dimensions.data
      (src.dimensions.dynamic_data.getD 1 [])
      (src.dimensions.dynamic_data.getD 2 [])
    by_cases hin : dimsWithinDynamicRange arg.type.dimensions.data
        (src.dimensions.dynamic_data.getD 1 [])
        (src.dimensions.dynamic_data.getD 2 []) = true
    · rw [if_pos hin]
      constructor
      · constructor
        · intro _
          simpa [DimensionType.count] using hiff.mp hin
        · intro _
          rfl
      · constructor
        · intro hcontra; cases hcontra
        · intro hcontra
          exact absurd (hiff.mp hin) (by simpa [DimensionType.count]
            using hcontra)
    · rw [if_neg hin]
      constructor
      · constructor
        · intro hcontra; cases hcontra
        · intro hall
          exact absurd (hiff.mpr (by simpa [DimensionType.count] using hall))
            hin
      · constructor
        · intro _
          intro hall
          exact absurd (hiff.mpr (by simpa [DimensionType.count] using hall))
            hin
        · intro _; rfl

/-- Witness for C2: one declared dynamic input with min [1, 3] and
max [4, 8]; the supplied extents [1, 8] hit the min bound in dimension 0
and the max bound in dimension 1 and are accepted. -/
theorem Program.checkInputsAndOutputs_dimension_gate_witness :
    (checkInputsFrom [srcDyn] [argDyn] 0 0 = .noError) ∧
    (FindArgumentByIndex [argDyn] 0 = some argDyn) ∧
    (([srcDyn] : List OperandType)[0]? = some srcDyn) ∧
    ((argDyn.type.dimensions.count ≠ srcDyn.dimensions.count →
      Program.CheckInputsAndOutputs [srcDyn] 1 [argDyn] 0 ([] : List (Argument Nat)) =
        .invalidDimensions) ∧
    (argDyn.type.dimensions.count = srcDyn.dimensions.count →
      argDyn.type.dimensions.data ≠ srcDyn.dimensions.data →
      srcDyn.dimensions.dynamic_count ≠ 3 →
      Program.CheckInputsAndOutputs [srcDyn] 1 [argDyn] 0 [] = .fatal) ∧
    (argDyn.type.dimensions.count = srcDyn.dimensions.count →
      argDyn.type.dimensions.data ≠ srcDyn.dimensions.data →
      srcDyn.dimensions.dynamic_count = 3 →
      ((Program.CheckInputsAndOutputs [srcDyn] 1 [argDyn] 0 [] = .noError ↔
        ∀ j < argDyn.type.dimensions.count,
          (srcDyn.dimensions.dynamic_data.getD 1 []).getD j 0 ≤
            argDyn.type.dimensions.data.getD j 0 ∧
          argDyn.type.dimensions.data.getD j 0 ≤
            (srcDyn.dimensions.dynamic_data.getD 2 []).getD j 0) ∧
       (Program.CheckInputsAndOutputs [srcDyn] 1 [argDyn] 0 [] =
          .invalidDimensions ↔
        ¬ ∀ j < argDyn.type.dimensions.count,
          (srcDyn.dimensions.dynamic_data.getD 1 []).getD j 0 ≤
            argDyn.type.dimensions.data.getD j 0 ∧
          argDyn.type.dimensions.data.getD j 0 ≤
            (srcDyn.dimensions.dynamic_data.getD 2 []).getD j 0)))) :=
  ⟨by decide, by decide, by decide,
   Program.checkInputsAndOutputs_dimension_gate [srcDyn] [argDyn] 0 []
     0 argDyn srcDyn (by decide) (by decide) (by decide)⟩

/-! ## C5: Execute is idempotent on a freshly built program -/

/-- Writing the same value preserves map domination. -/
theorem TMap.le_update {V : Type} (m m2 : TMap V) (h : TMap.le m m2)
    (k : Int) (v : V) : TMap.le (m.update k v) (m2.update k v) := by
  intro k2 v2 hk
  unfold TMap.update at hk ⊢
  by_cases he : k2 = k
  · simp only [if_pos he] at hk ⊢
    exact hk
  · simp only [if_neg he] at hk ⊢
    exact h k2 v2 hk

/-- The feed loop succeeds on a dominating map with a dominating result. -/
theorem feedLoop_mono {V : Type} (input_arguments : List (Argument V)) :
    ∀ (r i : Nat) (m m2 m1 : TMap V), TMap.le m m2 →
      feedLoop input_arguments i r m = some m1 →
      ∃ m3, feedLoop input_arguments i r m2 = some m3 ∧ TMap.le m1 m3 := by
  intro r
  induction r with
  | zero =>
    intro i m m2 m1 h hf
    simp only [feedLoop, Option.some_inj] at hf
    subst hf
    exact ⟨m2, rfl, h⟩
  | succ r2 ih =>
    intro i m m2 m1 h hf
    cases hfa : FindArgumentByIndex input_arguments i with
    | none => simp [feedLoop, hfa] at hf
    | some a =>
      simp only [feedLoop, hfa] at hf ⊢
      exact ih (i + 1) _ _ m1 (TMap.le_update _ _ h _ _) hf

/-- Reading the sub-program inputs from dominating maps yields the same
values. -/
theorem readSubInputs_mono {V : Type} (inm tm inm2 tm2 : TMap V)
    (hin : TMap.le inm inm2) (ht : TMap.le tm tm2) :
    ∀ (idxs : List Int) (vals : List V),
      readSubInputs inm tm idxs = some vals →
      readSubInputs inm2 tm2 idxs = some vals := by
  intro idxs
  induction idxs with
  | nil =>
    intro vals h
    simpa using h
  | cons idx rest ih =>
    intro vals h
    cases hv : (if idx < 0 then inm idx else tm idx) with
    | none => simp [readSubInputs, hv] at h
    | some v =>
      have hv2 : (if idx < 0 then inm2 idx else tm2 idx) = some v := by
        by_cases hneg : idx < 0
        · simp only [if_pos hneg] at hv ⊢
          exact hin idx v hv
        · simp only [if_neg hneg] at hv ⊢
          exact ht idx v hv
      simp only [readSubInputs, hv] at h
      cases hr : readSubInputs inm tm rest with
      | none => rw [hr] at h; simp at h
      | some vs =>
        rw [hr] at h
        simp only [Option.map_some', Option.some_inj] at h
        subst h
        simp [readSubInputs, hv2, ih vs hr]

/-- Writing the same sub-program outputs preserves domination of both
target maps. -/
theorem writeSubOutputs_mono {V : Type} :
    ∀ (idxs : List Int) (vals : List V) (tm om tm2 om2 : TMap V),
      TMap.le tm tm2 → TMap.le om om2 →
      TMap.le (writeSubOutputs idxs vals tm om).1
        (writeSubOutputs idxs vals tm2 om2).1 ∧
      TMap.le (writeSubOutputs idxs vals tm om).2
        (writeSubOutputs idxs vals tm2 om2).2 := by
  intro idxs
  induction idxs with
  | nil =>
    intro vals tm om tm2 om2 h1 h2
    exact ⟨h1, h2⟩
  | cons idx rest ih =>
    intro vals tm om tm2 om2 h1 h2
    cases vals with
    | nil => exact ⟨h1, h2⟩
    | cons v vs =>
      by_cases hneg : idx < 0
      · simp only [writeSubOutputs, if_pos hneg]
        exact ih vs _ _ _ _ h1 (TMap.le_update _ _ h2 idx v)
      · simp only [writeSubOutputs, if_neg hneg]
        exact ih vs _ _ _ _ (TMap.le_update _ _ h1 idx v) h2

/-- The sub-program loop succeeds on dominating maps, producing the same
written values and hence dominating result maps. -/
theorem runSubs_mono {M V : Type} (sem : SubProgramRec M → List V → List V) :
    ∀ (pairs : List (SubModel M × SubProgramRec M))
      (inm tm om inm2 tm2 om2 tmf omf : TMap V),
      TMap.le inm inm2 → TMap.le tm tm2 → TMap.le om om2 →
      runSubs sem pairs inm tm om = some (tmf, omf) →
      ∃ tmf2 omf2, runSubs sem pairs inm2 tm2 om2 = some (tmf2, omf2) ∧
        TMap.le tmf tmf2 ∧ TMap.le omf omf2 := by
  intro pairs
  induction pairs with
  | nil =>
    intro inm tm om inm2 tm2 om2 tmf omf hi ht ho h
    simp only [runSubs, Option.some_inj, Prod.mk.injEq] at h
    obtain ⟨h1, h2⟩ := h
    subst h1; subst h2
    exact ⟨tm2, om2, rfl, ht, ho⟩
  | cons pr rest ih =>
    obtain ⟨smod, sprog⟩ := pr
    intro inm tm om inm2 tm2 om2 tmf omf hi ht ho h
    cases hread : readSubInputs inm tm smod.input_indexes with
    | none => simp [runSubs, hread] at h
    | some vals =>
      have hread2 := readSubInputs_mono inm tm inm2 tm2 hi ht
        smod.input_indexes vals hread
      simp only [runSubs, hread] at h
      simp only [runSubs, hread2]
      obtain ⟨hw1, hw2⟩ := writeSubOutputs_mono smod.output_indexes
        (sem sprog vals) tm om tm2 om2 ht ho
      exact ih _ _ _ _ _ _ _ _ hi hw1 hw2 h

/-- The fetch loop reads the same outputs from a dominating map. -/
theorem fetchLoop_mono {V : Type} (output_arguments : List (Argument V))
    (om om2 : TMap V) (h : TMap.le om om2) :
    ∀ (r i : Nat) (outs : List V),
      fetchLoop output_arguments om i r = some outs →
      fetchLoop output_arguments om2 i r = some outs := by
  intro r
  induction r with
  | zero =>
    intro i outs hf
    simpa using hf
  | succ r2 ih =>
    intro i outs hf
    cases hfa : FindArgumentByIndex output_arguments i with
    | none => simp [fetchLoop, hfa] at hf
    | some a =>
      cases hv : om (-(i : Int) - 1) with
      | none => simp [fetchLoop, hfa, hv] at hf
      | some v =>
        simp only [fetchLoop, hfa, hv] at hf
        cases hr : fetchLoop output_arguments om (i + 1) r2 with
        | none => rw [hr] at hf; simp at hf
        | some vs =>
          rw [hr] at hf
          simp only [Option.map_some', Option.some_inj] at hf
          subst hf
          simp [fetchLoop, hfa, h _ _ hv, ih (i + 1) vs hr]

/-- A successful `Execute` only rewrites the three tensor maps: the
sub-models, sub-programs, cache slices, declared types and the ownership
flag come through unchanged. -/
theorem Program.execute_preserves_structure {M V : Type}
    (sem : SubProgramRec M → List V → List V) (input_count : Nat)
    (input_arguments : List (Argument V)) (output_count : Nat)
    (output_arguments : List (Argument V)) (s t : ProgramState M V)
    (ret : ExecRet V)
    (h : Program.Execute sem input_count input_arguments output_count
      output_arguments s = some (ret, t)) :
    t.sub_models_ = s.sub_models_ ∧ t.sub_programs_ = s.sub_programs_ ∧
    t.sub_caches_ = s.sub_caches_ ∧ t.input_types_ = s.input_types_ ∧
    t.output_types_ = s.output_types_ ∧
    t.is_sub_model_from_cache_ = s.is_sub_model_from_cache_ := by
  cases hchk : Program.CheckInputsAndOutputs s.input_types_ input_count
      input_arguments output_count output_arguments with
  | fatal => simp [Program.Execute, hchk] at h
  | invalidDimensions =>
    simp only [Program.Execute, hchk, Option.some_inj, Prod.mk.injEq] at h
    obtain ⟨h1, h2⟩ := h
    subst h2
    exact ⟨rfl, rfl, rfl, rfl, rfl, rfl⟩
  | noError =>
    simp only [Program.Execute, hchk] at h
    cases hfeed : feedLoop input_arguments 0 s.input_types_.length
        s.input_tensors_ with
    | none => rw [hfeed] at h; simp at h
    | some inm =>
      rw [hfeed] at h
      simp only [] at h
      split at h
      · cases hrun : runSubs sem (s.sub_models_.zip s.sub_programs_) inm
            s.temporary_tensors_ s.output_tensors_ with
        | none => rw [hrun] at h; simp at h
        | some p =>
          obtain ⟨tm, om⟩ := p
          rw [hrun] at h
          simp only [] at h
          cases hfetch : fetchLoop output_arguments om 0
              s.output_types_.length with
          | none => rw [hfetch] at h; simp at h
          | some outs =>
            rw [hfetch] at h
            simp only [Option.some_inj, Prod.mk.injEq] at h
            obtain ⟨h1, h2⟩ := h
            subst h2
            exact ⟨rfl, rfl, rfl, rfl, rfl, rfl⟩
      · simp at h

/-- A successful `Execute` also succeeds, with the same outputs, from any
state with the same structure whose tensor maps dominate the original
ones. -/
theorem Program.execute_mono {M V : Type}
    (sem : SubProgramRec M → List V → List V) (input_count : Nat)
    (input_arguments : List (Argument V)) (output_count : Nat)
    (output_arguments : List (Argument V)) (s s2 : ProgramState M V)
    (outs : List V) (t : ProgramState M V)
    (hmods : s2.sub_models_ = s.sub_models_)
    (hprogs : s2.sub_programs_ = s.sub_programs_)
    (hit : s2.input_types_ = s.input_types_)
    (hot : s2.output_types_ = s.output_types_)
    (hi : TMap.le s.input_tensors_ s2.input_tensors_)
    (ht : TMap.le s.temporary_tensors_ s2.temporary_tensors_)
    (ho : TMap.le s.output_tensors_ s2.output_tensors_)
    (h : Program.Execute sem input_count input_arguments output_count
      output_arguments s = some (.success outs, t)) :
    ∃ t2, Program.Execute sem input_count input_arguments output_count
      output_arguments s2 = some (.success outs, t2) := by
  cases hchk : Program.CheckInputsAndOutputs s.input_types_ input_count
      input_arguments output_count output_arguments with
  | fatal => simp [Program.Execute, hchk] at h
  | invalidDimensions =>
    simp only [Program.Execute, hchk, Option.some_inj, Prod.mk.injEq] at h
    exact absurd h.1 (by intro hcontra; cases hcontra)
  | noError =>
    simp only [Program.Execute, hchk] at h
    cases hfeed : feedLoop input_arguments 0 s.input_types_.length
        s.input_tensors_ with
    | none => rw [hfeed] at h; simp at h
    | some inm =>
      rw [hfeed] at h
      simp only [] at h
      obtain ⟨inm2, hfeed2, hile⟩ := feedLoop_mono input_arguments
        s.input_types_.length 0 s.input_tensors_ s2.input_tensors_ inm hi
        hfeed
      split at h
      · cases hrun : runSubs sem (s.sub_models_.zip s.sub_programs_) inm
            s.temporary_tensors_ s.output_tensors_ with
        | none => rw [hrun] at h; simp at h
        | some p =>
          obtain ⟨tm, om⟩ := p
          rw [hrun] at h
          simp only [] at h
          cases hfetch : fetchLoop output_arguments om 0
              s.output_types_.length with
          | none => rw [hfetch] at h; simp at h
          | some outs2 =>
            rw [hfetch] at h
            simp only [Option.some_inj, Prod.mk.injEq] at h
            obtain ⟨h1, h2⟩ := h
            have houts : outs2 = outs := by
              cases h1; rfl
            subst houts
            obtain ⟨tm2, om2, hrun2, htle, hole⟩ := runSubs_mono sem
              (s.sub_models_.zip s.sub_programs_) inm s.temporary_tensors_
              s.output_tensors_ inm2 s2.temporary_tensors_
              s2.output_tensors_ tm om hile ht ho hrun
            have hfetch2 := fetchLoop_mono output_arguments om om2 hole
              s.output_types_.length 0 outs2 hfetch
            refine ⟨{ s2 with
                input_tensors_ := inm2
                temporary_tensors_ := tm2
                output_tensors_ := om2 }, ?_⟩
            simp only [Program.Execute, hit, hchk, hfeed2]
            rw [if_pos (by rw [hmods, hprogs]; omega)]
            rw [hmods, hprogs, hrun2]
            simp only []
            rw [hot, hfetch2]
      · simp at h

/-- C5: on a program built once (so the tensor maps start empty), calling
`Execute` twice in succession with the same arguments yields identical
outputs both times: whatever the first call left in the intermediate and
boundary maps cannot change the second call's result, because every index
the second call reads is rewritten with the same value earlier in that
same call. -/
theorem Program.execute_twice_same_outputs {M V : Type}
    (sem : SubProgramRec M → List V → List V) (input_count : Nat)
    (input_arguments : List (Argument V)) (output_count : Nat)
    (output_arguments : List (Argument V)) (s0 : ProgramState M V)
    (h0i : ∀ k, s0.input_tensors_ k = none)
    (h0t : ∀ k, s0.temporary_tensors_ k = none)
    (h0o : ∀ k, s0.output_tensors_ k = none)
    (out1 : List V)
    (h1 : (Program.Execute sem input_count input_arguments output_count
      output_arguments s0).map Prod.fst = some (.success out1)) :
    ((Program.Execute sem input_count input_arguments output_count
      output_arguments s0).bind fun r =>
        Program.Execute sem input_count input_arguments output_count
          output_arguments r.2).map Prod.fst = some (.success out1) := by
  cases hex : Program.Execute sem input_count input_arguments output_count
      output_arguments s0 with
  | none => rw [hex] at h1; simp at h1
  | some r =>
    obtain ⟨ret, s1⟩ := r
    rw [hex] at h1
    simp only [Option.map_some', Option.some_inj] at h1
    subst h1
    obtain ⟨hmods, hprogs, _, hit, hot, _⟩ :=
      Program.execute_preserves_structure sem input_count input_arguments
        output_count output_arguments s0 s1 (.success out1) hex
    have hi : TMap.le s0.input_tensors_ s1.input_tensors_ := by
      intro k v hv
      rw [h0i k] at hv
      cases hv
    have ht : TMap.le s0.temporary_tensors_ s1.temporary_tensors_ := by
      intro k v hv
      rw [h0t k] at hv
      cases hv
    have ho : TMap.le s0.output_tensors_ s1.output_tensors_ := by
      intro k v hv
      rw [h0o k] at hv
      cases hv
    obtain ⟨t2, hex2⟩ := Program.execute_mono sem input_count input_arguments
      output_count output_arguments s0 s1 out1 s1 hmods hprogs hit hot hi ht
      ho hex
    simp [hex, hex2]

/-- Witness for C5: a one-sub-program copy pipeline fed the value 7 twice
returns [7] both times. -/
theorem Program.execute_twice_same_outputs_witness :
    ((Program.Execute semCopy 1 [argR1] 1 [argOut] stateOneSub).map
      Prod.fst = some (.success [7])) ∧
    (((Program.Execute semCopy 1 [argR1] 1 [argOut] stateOneSub).bind
      fun r => Program.Execute semCopy 1 [argR1] 1 [argOut] r.2).map
        Prod.fst = some (.success [7])) :=
  ⟨by decide,
   Program.execute_twice_same_outputs semCopy 1 [argR1] 1 [argOut]
     stateOneSub (fun _ => rfl) (fun _ => rfl) (fun _ => rfl) [7]
     (by decide)⟩

end NvidiaTensorrt
